import Mathlib

/-!
Verification development for the bikeshed cross-reference core
(`src/bikeshed/refs/ReferenceManager.py`, `src/bikeshed/retrieve.py`).

The Python code is shallowly embedded: dictionaries become association
lists, Python's `None` becomes `Option`, truthiness of strings/lists is
made explicit, exceptions that escape a function become an explicit
`crash` outcome, and the diagnostics emitted through the `messages`
module are collected in an output list.  Code of the repository that is
not part of the snapshot (`RefSource.queryRefs`, `refs/utils.py`,
`biblio.py`, `config.py`, `messages.py`) is modelled from the spec; each
such definition carries a doc comment starting `Modelled from the spec:`.
-/

namespace Bikeshed

/-! ## Python string helpers -/

/-- Whitespace characters of Python's `str.strip` / `\s`
(space, tab, newline, carriage return; the rare `\x0b`/`\x0c` are omitted).
Comparisons go through code points so terms reduce inside the kernel. -/
def isPyWs (c : Char) : Bool :=
  c.toNat == 32 || c.toNat == 9 || c.toNat == 10 || c.toNat == 13

/-- Code point of the newline character. -/
def isNl (c : Char) : Bool := c.toNat == 10

/-- ASCII digit, as Python's `\d` behaves on this corpus data. -/
def pyIsDigit (c : Char) : Bool :=
  Nat.ble 48 c.toNat && Nat.ble c.toNat 57

/-- ASCII lowercasing, as Python's `str.lower` behaves on spec names and
biblio keys. -/
def charLower (c : Char) : Char :=
  if Nat.ble 65 c.toNat && Nat.ble c.toNat 90 then Char.ofNat (c.toNat + 32) else c

def pyLower (s : String) : String :=
  String.mk (s.toList.map charLower)

/-- Python's `<` on characters: code-point comparison. -/
def charLt (c d : Char) : Bool := Nat.blt c.toNat d.toNat

/-- Python's `<` on strings: lexicographic code-point comparison. -/
def lexLt : List Char → List Char → Bool
  | [], [] => false
  | [], _ :: _ => true
  | _ :: _, [] => false
  | c :: cs, d :: ds =>
    if charLt c d then true else if charLt d c then false else lexLt cs ds

/-- The first list starts the second (by code points). -/
def listLeads : List Char → List Char → Bool
  | [], _ => true
  | _ :: _, [] => false
  | a :: as, b :: bs => a.toNat == b.toNat && listLeads as bs

/-- Python `str.startswith`. -/
def startsWithS (s pre : String) : Bool :=
  listLeads pre.toList s.toList

/-- Python `str.endswith`. -/
def endsWithS (s suf : String) : Bool :=
  listLeads suf.toList.reverse s.toList.reverse

/-- Python `str.strip()`: remove leading and trailing whitespace. -/
def pyStrip (s : String) : String :=
  String.mk ((s.toList.dropWhile isPyWs).reverse.dropWhile isPyWs).reverse

/-- Python `str.rstrip()`: remove trailing whitespace. -/
def pyRstrip (s : String) : String :=
  String.mk (s.toList.reverse.dropWhile isPyWs).reverse

/-- Modelled from the spec: `utils.stripLineBreaks` (file not in the
snapshot) removes trailing line breaks from each string field of a
biblio entry before it is turned into a `BiblioEntry`. -/
def stripNl (s : String) : String :=
  String.mk (s.toList.reverse.dropWhile isNl).reverse

/-- Modelled from the spec: `h.unfixTypography` (not in the snapshot);
§3 stores link text "typography-unfixed", i.e. typographic apostrophes
(U+2019) are reverted to the plain apostrophe (U+0027). -/
def unfixTypography (s : String) : String :=
  String.mk (s.toList.map
    (fun c => if c.toNat == 8217 then Char.ofNat 39 else c))

/-- Python `re.sub(r"\s+", " ", s)`: collapse whitespace runs to one space
(the flag records whether the previous character was whitespace). -/
def collapseWs (s : String) : String :=
  String.mk (go false s.toList)
where
  go : Bool → List Char → List Char
  | _, [] => []
  | inWs, c :: rest =>
    if isPyWs c then
      (if inWs then go true rest else ' ' :: go true rest)
    else c :: go false rest

/-! ## A stable insertion sort (Python's `sorted` is a stable ascending sort) -/

/-- Insert `x` after every element strictly below it (stable insertion):
`x` goes before the first element that is not strictly below `x`. -/
def insSorted (le : α → α → Bool) (x : α) : List α → List α
  | [] => [x]
  | y :: ys => if le y x && !(le x y) then y :: insSorted le x ys else x :: y :: ys

/-- Stable ascending sort by the boolean order `le`, as Python's `sorted`. -/
def stableSort (le : α → α → Bool) : List α → List α
  | [] => []
  | x :: xs => insSorted le x (stableSort le xs)

/-! ## Diagnostics

Modelled from the spec: the `messages` module is not in the snapshot.
§6 names three severities — fatal (abort build), link-error, warning —
and §7 pins the mapping: failure-taxonomy reports are link-errors
(`m.linkerror`), while data-corruption reports such as the biblio
cyclic-chain detection (emitted with `m.die`) are fatal.  Messages are
embedded structurally, keyed by the identifiers the source interpolates
into the text; display-string formatting (`simplifyPossibleRefs`,
`refToText`) is abstracted away. -/

inductive Msg where
  | unknownStatus (status : String)
  | ambiguousForless (text : String)
  | multipleLocalRefs (linkType text : String)
  | multiplePossibleRefs (linkType text : String)
  | tooManyOverloads (text : String)
  | tooManyMethodTargets (text : String)
  | noRefsFound (failure linkType text : String)
  | programmingError (failure : String)
  | cyclicBiblio (text : String)
  | wrongBiblioSuffix (text : String)
  | aliasMissing (text target : String)
  | obsoleteBiblio (oldText newText : String)
  | duplicateDfn (linkType text : String)
  | duplicateDfnFor (linkType singleFor text : String)
  | unknownDfnType (t : String)
  | duplicatedLinkText (text : String)
deriving DecidableEq

inductive Sev where
  | fatal
  | linkerror
  | warning
deriving DecidableEq

/-- The channel each message is emitted on: `m.die` is fatal,
`m.linkerror` is a link-error. -/
def Msg.sev : Msg → Sev
  | .unknownStatus _ => .fatal
  | .ambiguousForless _ => .linkerror
  | .multipleLocalRefs _ _ => .linkerror
  | .multiplePossibleRefs _ _ => .linkerror
  | .tooManyOverloads _ => .linkerror
  | .tooManyMethodTargets _ => .linkerror
  | .noRefsFound _ _ _ => .linkerror
  | .programmingError _ => .fatal
  | .cyclicBiblio _ => .fatal
  | .wrongBiblioSuffix _ => .fatal
  | .aliasMissing _ _ => .fatal
  | .obsoleteBiblio _ _ => .fatal
  | .duplicateDfn _ _ => .fatal
  | .duplicateDfnFor _ _ _ => .fatal
  | .unknownDfnType _ => .fatal
  | .duplicatedLinkText _ => .fatal

/-! ## Data model -/

/-- A reference entry (the dict built in `addLocalDfns`, lines 285-295,
and the entries of the anchor-block/foreign corpora).  `el` is the
element identity used for the `is not el` comparisons (0 for entries
that carry no element).  `export` is a Lean keyword, hence `export_`. -/
structure Ref where
  text : String
  type : String
  spec : String
  shortname : String
  level : String
  status : String
  url : String
  export_ : Bool
  for_ : List String
  el : Nat
deriving DecidableEq

/-- One entry of the `methods.json` index: maps an argfull method name to
its arguments, owning interfaces and spec shortname (consumed at
`ReferenceManager.getRef` lines 483-498). -/
structure MethodMeta where
  args : List String
  for_ : List String
  shortname : String
deriving DecidableEq

/-- One authority tier (`RefSource.RefSource`; the class body is not in
the snapshot, only its stores are used by the code at hand):
`refs` maps link text to its entries, `methods` is the method-signature
index, `fors` maps a for-value to the link texts defined for it,
`methodVariants` stands for the store updated by `addMethodVariants`
(modelled from the spec, details not in the snapshot). -/
structure RefSource where
  refs : List (String × List Ref)
  methods : List (String × List (String × MethodMeta))
  fors : List (String × List String)
  methodVariants : List (String × String)
deriving DecidableEq

/-- A default-link rule `(spec, type, status, for)` (spec §3: a mapping
from link text to an ordered list of such tuples). -/
structure DefaultRule where
  spec : String
  type : String
  status : Option String
  for_ : Option String
deriving DecidableEq

/-- A raw biblio candidate as stored in `self.biblios` (only the fields
the resolver reads). -/
structure BiblioRaw where
  linkText : String
  title : String
  obsoletedBy : String
  aliasOf : String
  order : Nat
  biblioFormat : String
deriving DecidableEq

/-- Modelled from the spec: the constructed citation entry
(`biblio.BiblioEntry` / `StringBiblioEntry` / `SpecBasedBiblioEntry`,
file not in the snapshot).  It keeps the candidate it was built from,
the chosen preferred URL and a tag for which constructor made it;
`originalLinkText` records the pre-canonical name (source lines 716-720). -/
structure Bib where
  linkText : String
  originalLinkText : Option String
  raw : Option BiblioRaw
  preferredURL : Option String
  tag : String
deriving DecidableEq

/-- The `ReferenceManager` state (its `__slots__`), minus the pure I/O
plumbing (`dataFile`, `headings`, `loadedBiblioGroups`, `biblioKeys`) that
none of the embedded operations read.  `biblios` is the biblio store
after lazy group loading (the loading itself is blocking I/O through
`biblio.loadBiblioDataFile`, not in the snapshot); `rand` is an oracle
index modelling `random.choice` in the non-testing branch. -/
structure ReferenceManager where
  specs : List (String × String)
  defaultSpecs : List (String × List DefaultRule)
  ignoredSpecs : List String
  replacedSpecs : List (String × String)
  biblios : List (String × List BiblioRaw)
  biblioNumericSuffixes : List (String × List String)
  preferredBiblioNames : List (String × String)
  defaultStatus : String
  localRefs : RefSource
  anchorBlockRefs : RefSource
  foreignRefs : RefSource
  shortname : Option String
  specLevel : String
  spec : Option String
  testing : Bool
  rand : Nat
deriving DecidableEq

/-! ## Biblio resolution (`getBiblioRef` and friends, lines 634-762) -/

/-- The outcome of a biblio call: a returned value, or an uncaught
Python exception escaping the call (`crash`). -/
inductive BiblioOutcome where
  | ok (b : Option Bib)
  | crash
deriving DecidableEq

/-- `ReferenceManager.bibliosFromKey` (lines 724-736): the lazy loading
of the two-character group is abstracted — `rm.biblios` is the
post-load store, and the lookup defaults to the empty list exactly as
`self.biblios.get(key, [])` does. -/
def bibliosFromKey (rm : ReferenceManager) (key : String) : List BiblioRaw :=
  (rm.biblios.lookup key).getD []

/-- Ascending comparison on the `order` field (`itemgetter("order")`). -/
def orderLe (a b : BiblioRaw) : Bool :=
  decide (a.order ≤ b.order)

/-- `stripLineBreaks` applied to every string field of a candidate. -/
def stripRaw (c : BiblioRaw) : BiblioRaw :=
  ⟨stripNl c.linkText, stripNl c.title, stripNl c.obsoletedBy,
    stripNl c.aliasOf, c.order, stripNl c.biblioFormat⟩

/-- `ReferenceManager._bestCandidateBiblio` (lines 738-739):
`utils.stripLineBreaks(sorted(candidates, key=itemgetter("order"))[0])`.
`none` is the empty-candidate case, where `sorted([])[0]` would raise
`IndexError` (surfaced as `crash` by the callers). -/
def bestCandidateBiblio (cs : List BiblioRaw) : Option BiblioRaw :=
  match stableSort orderLe cs with
  | [] => none
  | c :: _ => some (stripRaw c)

/-- Modelled from the spec: `biblio.BiblioEntry(preferredURL=status, **candidate)`. -/
def mkBib (preferredURL : Option String) (c : BiblioRaw) : Bib :=
  ⟨c.linkText, none, some c, preferredURL, "dict"⟩

/-- Modelled from the spec: `biblio.StringBiblioEntry(**candidate)`. -/
def mkStringBib (c : BiblioRaw) : Bib :=
  ⟨c.linkText, none, some c, none, "string"⟩

/-- Modelled from the spec: `biblio.SpecBasedBiblioEntry(spec,
preferredURL=status)` — §4.3 step 4, a citation synthesized from spec
metadata. -/
def mkSpecBib (key : String) (preferredURL : Option String) : Bib :=
  ⟨key, none, none, preferredURL, "specbased"⟩

/-- The canonical-name override (source lines 715-720): if the resolved
entry's link text has a registered preferred form, substitute it and
retain the original. -/
def applyPreferredName (rm : ReferenceManager) (b : Bib) : Bib :=
  match rm.preferredBiblioNames.lookup b.linkText with
  | some pref => ⟨pref, some b.linkText, b.raw, b.preferredURL, b.tag⟩
  | none => b

/-- `re.match(r"(.+)-\d+$", key)` (line 659): the key, up to one final
newline that `$` may precede, must end in a dash followed by a nonempty
ASCII digit run; the group is everything before that dash, which is
nonempty and (because `.` excludes newlines) newline-free. -/
def dropOneTrailingNl (s : String) : List Char :=
  match s.toList.reverse with
  | c :: rest => if isNl c then rest.reverse else s.toList
  | [] => []

def matchBaseSuffix (key : String) : Option String :=
  let rcs := (dropOneTrailingNl key).reverse
  let ds := rcs.takeWhile pyIsDigit
  if ds.isEmpty then none
  else
    match rcs.drop ds.length with
    | d :: base =>
      if !(d.toNat == 45) then none
      else if base.isEmpty || base.any isNl then none
      else some (String.mk base.reverse)
    | [] => none

/-- `re.search(r"(\d{8})$", k)` (line 753): the last eight digits of the
trailing digit run (which `$` may end just before one final newline),
provided that run has at least eight digits. -/
def match8Date (k : String) : Option String :=
  let rcs := (dropOneTrailingNl k).reverse
  let ds := rcs.takeWhile pyIsDigit
  if ds.length ≥ 8 then some (String.mk (ds.take 8).reverse) else none

/-- The tail of `getBiblioRef` once candidates are in hand (source lines
684-722): pick the best candidate, resolve by format (string / alias /
obsoleted / plain), then apply the canonical-name override.  `recur`
performs the recursive resolution at depth+1 (both recursive call sites
pass `quiet=True` and leave `generateFakeRef`/`allowObsolete` at their
`False` defaults).  In the not-allowed obsolescence branch a `None`
recursive result crashes: building the `m.die` text dereferences
`bib.linkText` on `None` (and with `quiet` the same dereference happens
one line later at the canonical-name lookup). -/
def resolveCandidates (rm : ReferenceManager)
    (recur : String → BiblioOutcome × List Msg)
    (text : String) (status : Option String) (allowObsolete quiet : Bool)
    (candidates : List BiblioRaw) : BiblioOutcome × List Msg :=
  match bestCandidateBiblio candidates with
  | none => (.crash, [])
  | some candidate =>
    if candidate.biblioFormat == "string" then
      (.ok (some (applyPreferredName rm (mkStringBib candidate))), [])
    else if candidate.biblioFormat == "alias" then
      match recur candidate.aliasOf with
      | (.crash, ms) => (.crash, ms)
      | (.ok none, ms) => (.ok none, ms ++ [.aliasMissing text candidate.aliasOf])
      | (.ok (some b), ms) => (.ok (some (applyPreferredName rm b)), ms)
    else if pyStrip candidate.obsoletedBy != "" then
      if allowObsolete then
        (.ok (some (applyPreferredName rm (mkBib status candidate))), [])
      else
        match recur candidate.obsoletedBy with
        | (.crash, ms) => (.crash, ms)
        | (.ok none, ms) => (.crash, ms)
        | (.ok (some b), ms) =>
          (.ok (some (applyPreferredName rm b)),
            ms ++ (if quiet then [] else [.obsoleteBiblio candidate.linkText b.linkText]))
    else
      (.ok (some (applyPreferredName rm (mkBib status candidate))), [])

/-- The body of `getBiblioRef` (lines 634-722), with the depth counter
represented by the remaining gas `101 - depth`: gas `0` is exactly
`depth > 100` (`m.die` on an infinite alias/obsolescence chain, then
`return`, i.e. `None`), and the recursive calls at `depth + 1` run at
gas one lower.  The `while True` loop runs at most one iteration (every
path breaks or returns), so it is laid out straight-line.  Note the
source order in the miss branch: the numeric-suffix match is tried
first; a wrong-suffix miss falls through to the known-spec fake-ref
check before the wrong-suffix error is reported. -/
def getBiblioRefGas (rm : ReferenceManager) :
    Nat → String → Option String → Bool → Bool → Bool → BiblioOutcome × List Msg
  | 0, text, _, _, _, _ => (.ok none, [.cyclicBiblio text])
  | gas + 1, text, status, generateFakeRef, allowObsolete, quiet =>
    let key := pyLower text
    let candidates := bibliosFromKey rm key
    if !candidates.isEmpty then
      resolveCandidates rm (fun t => getBiblioRefGas rm gas t status false false true)
        text status allowObsolete quiet candidates
    else
      match matchBaseSuffix key with
      | some base =>
        match rm.biblios.lookup base with
        | some baseCands =>
          if (rm.biblioNumericSuffixes.lookup base).isSome then
            if (rm.specs.lookup key).isSome && generateFakeRef then
              (.ok (some (mkSpecBib key status)), [])
            else
              (.ok none, if quiet then [] else [.wrongBiblioSuffix text])
          else
            resolveCandidates rm (fun t => getBiblioRefGas rm gas t status false false true)
              text status allowObsolete quiet baseCands
        | none =>
          if (rm.specs.lookup key).isSome && generateFakeRef then
            (.ok (some (mkSpecBib key status)), [])
          else (.ok none, [])
      | none =>
        if (rm.specs.lookup key).isSome && generateFakeRef then
          (.ok (some (mkSpecBib key status)), [])
        else (.ok none, [])

/-- `ReferenceManager.getBiblioRef(text, status, generateFakeRef,
allowObsolete, quiet, depth)`: the entry guard `depth > 100` is the
gas-0 case of `getBiblioRefGas`, since `101 - depth = 0` iff
`depth > 100`. -/
def getBiblioRef (rm : ReferenceManager) (text : String) (status : Option String)
    (generateFakeRef allowObsolete quiet : Bool) (depth : Nat) :
    BiblioOutcome × List Msg :=
  getBiblioRefGas rm (101 - depth) text status generateFakeRef allowObsolete quiet

/-- One iteration of the `getLatestBiblioRef` loop body (lines 750-759):
skip keys that do not start with `key` or have no 8-digit date suffix,
and otherwise keep the accumulator unless `date > latestDate` (Python
string `>`, i.e. `lexLt` the other way around). -/
def accStep (key k : String) (bs : List BiblioRaw)
    (acc : Option (String × List BiblioRaw)) : Option (String × List BiblioRaw) :=
  if startsWithS k key then
    match match8Date k with
    | some date =>
      match acc with
      | none => some (date, bs)
      | some (ld, lbs) =>
        if lexLt ld.toList date.toList then some (date, bs) else some (ld, lbs)
    | none => acc
  else acc

/-- The scan of `getLatestBiblioRef` (lines 750-759) over the biblio
store: fold the loop body over the items. -/
def latestScan (key : String) :
    List (String × List BiblioRaw) → Option (String × List BiblioRaw) →
    Option (String × List BiblioRaw)
  | [], acc => acc
  | (k, bs) :: rest, acc => latestScan key rest (accStep key k bs acc)

/-- `ReferenceManager.getLatestBiblioRef` (lines 741-762).  The final
`biblio.BiblioEntry(**self._bestCandidateBiblio(latestRefs))` takes no
preferred URL; a latest group that is an empty list would raise
(`sorted([])[0]`), surfaced as `crash`. -/
def getLatestBiblioRef (rm : ReferenceManager) (key : String) : BiblioOutcome :=
  let candidates := bibliosFromKey rm key
  if candidates.isEmpty then .ok none
  else
    match latestScan key rm.biblios none with
    | none => .ok none
    | some (_, latestRefs) =>
      match bestCandidateBiblio latestRefs with
      | none => .crash
      | some c => .ok (some (mkBib none c))

/-! ## Data-file retrieval (`src/bikeshed/retrieve.py`, lines 9-62) -/

/-- A `DataFileRequester`: its `type` string and optionally a fallback
requester used when the main one fails (`__init__`, lines 10-15; the
`None`-or-requester field becomes two constructors). -/
inductive Requester where
  | plain (ty : String)
  | withFallback (ty : String) (fb : Requester)
deriving DecidableEq

def Requester.ty : Requester → String
  | .plain t => t
  | .withFallback t _ => t

/-- Modelled from the spec: `config.scriptPath` (not in the snapshot)
roots data paths at the package's `spec-data` directory;
`_buildPath` (lines 45-51) adds `readonly` for that file type. -/
def buildPath (segs : List String) (fileType : String) : String :=
  if fileType == "readonly" then
    String.intercalate "/" ("spec-data" :: "readonly" :: segs)
  else
    String.intercalate "/" ("spec-data" :: segs)

/-- What `fetch` hands back: the file's text in `str` mode, or an open
handle (modelled by the readable content) otherwise. -/
inductive FetchResult where
  | strRes (content : String)
  | handle (content : String)
deriving DecidableEq

/-- The raised `OSError`, carrying the location it names. -/
inductive OSErr where
  | noFile (location : String)
deriving DecidableEq

/-- A fetch either returns a result or raises an `OSError`. -/
inductive FetchOutcome where
  | ok (res : FetchResult)
  | err (e : OSErr)
deriving DecidableEq

/-- `DataFileRequester._fail` (lines 53-59): empty result when failure
is tolerated, otherwise an `OSError` naming the location. -/
def requesterFail (location : String) (strMode okayToFail : Bool) :
    FetchOutcome :=
  if okayToFail then .ok (if strMode then .strRes "" else .handle "")
  else .err (.noFile location)

/-- `DataFileRequester.fetch` (lines 21-38) over a filesystem `fs`
mapping locations to contents.  A miss tries the fallback (which keeps
`str`/`okayToFail` but is asked with its own type); if that raises too,
`_fail` runs against the *outer* location. -/
def fetch (fs : List (String × String)) (r : Requester) (segs : List String)
    (strMode okayToFail : Bool) (typeArg : Option String) :
    FetchOutcome :=
  match r with
  | .plain t =>
    match fs.lookup (buildPath segs (typeArg.getD t)) with
    | some content => .ok (if strMode then .strRes content else .handle content)
    | none => requesterFail (buildPath segs (typeArg.getD t)) strMode okayToFail
  | .withFallback t fb =>
    match fs.lookup (buildPath segs (typeArg.getD t)) with
    | some content => .ok (if strMode then .strRes content else .handle content)
    | none =>
      match fetch fs fb segs strMode okayToFail none with
      | .ok res => .ok res
      | .err _ => requesterFail (buildPath segs (typeArg.getD t)) strMode okayToFail

/-- Whether any requester along the fallback chain finds its file. -/
def anyHit (fs : List (String × String)) (r : Requester) (segs : List String)
    (typeArg : Option String) : Bool :=
  match r with
  | .plain t => (fs.lookup (buildPath segs (typeArg.getD t))).isSome
  | .withFallback t fb =>
    (fs.lookup (buildPath segs (typeArg.getD t))).isSome || anyHit fs fb segs none

/-! ## Characterization of the latest-dated-variant scan -/

/-- A key that counts in the `getLatestBiblioRef` scan: it starts with
the requested key and carries an 8-digit date suffix. -/
def isDated (key k : String) : Bool :=
  startsWithS k key && (match8Date k).isSome

/-! ## Link-query machinery (`getRef` and the modelled `RefSource.queryRefs`) -/

/-- A Python value that is either a single string or a list of strings:
the `for`-arguments of the source are passed both ways (`linkFor="/"`
versus a list of for-values), and some branches behave differently on
each (`any(x.endswith("()") for x in linkFor)` iterates characters on a
plain string). -/
inductive PyStrList where
  | one (s : String)
  | many (ss : List String)
deriving DecidableEq

def PyStrList.toSet : PyStrList → List String
  | .one s => [s]
  | .many ss => ss

/-- Python truthiness of a for-value. -/
def pyTruthyFor : PyStrList → Bool
  | .one s => !(s == "")
  | .many ss => !ss.isEmpty

/-- The keyword arguments of `RefSource.queryRefs` that the code at hand
passes (`el` is ignored by the model; `exact` is accepted but the
modelled text lookup is always exact, per §4.1 step 1). -/
structure QueryArgs where
  linkType : String
  text : Option String
  spec : Option String
  status : Option String
  statusHint : Option String
  linkFor : Option PyStrList
  linkForHint : Option PyStrList
  explicitFor : Bool
  export_ : Option Bool
  ignoreObsoletes : Bool
  exact : Bool
deriving DecidableEq

/-- A query with only the link type set. -/
def QueryArgs.base (linkType : String) : QueryArgs :=
  ⟨linkType, none, none, none, none, none, none, false, none, false, false⟩

/-- Modelled from the spec: the IDL member kinds of §3's closed tag set. -/
def idlKinds : List String :=
  ["interface", "namespace", "extended-attribute", "constructor", "method",
   "argument", "attribute", "callback", "dictionary", "dict-member", "enum",
   "enum-value", "exception", "const", "typedef", "stringifier", "serializer",
   "iterator", "maplike", "setlike"]

/-- Modelled from the spec: the CSS value kinds an umbrella `maybe`
query may match. -/
def maybeKinds : List String :=
  ["value", "type", "at-rule", "function", "selector"]

/-- Modelled from the spec: `config.linkTypeIn` (not in the snapshot) —
§4.1 step 1's fixed kind-compatibility hierarchy: equality, or one of
the umbrella kinds (`propdesc`, `functionish`, `idl`, `maybe`). -/
def linkTypeCompat (queryKind entryKind : String) : Bool :=
  queryKind == entryKind
  || (queryKind == "propdesc" && (entryKind == "property" || entryKind == "descriptor"))
  || (queryKind == "functionish" && (entryKind == "function" || entryKind == "method"))
  || (queryKind == "idl" && idlKinds.contains entryKind)
  || (queryKind == "maybe" && maybeKinds.contains entryKind)

/-- Modelled from the spec: `config.dfnTypes` — §3's closed set of ~30
definition kinds. -/
def dfnTypes : List String :=
  ["dfn", "property", "descriptor", "value", "type", "at-rule", "function",
   "selector", "element", "element-attr", "attr-value", "element-state",
   "event", "grammar", "http-header", "scheme", "abstract-op"] ++ idlKinds

/-- Modelled from the spec: `config.lowercaseTypes` — §3: the kinds whose
link text is case-insensitive and stored lowercased. -/
def lowercaseTypes : List String :=
  ["dfn", "element", "element-attr", "attr-value", "element-state", "event",
   "scheme", "http-header"]

/-- Modelled from the spec: `config.linkStatuses` — §3's status enum
`{local, current, snapshot}`. -/
def linkStatuses : List String := ["current", "snapshot", "local"]

/-- Modelled from the spec: `utils.filterObsoletes` (not in the
snapshot) — §4.1 step 6 / §3: drop the obsolete half of a
`replacedSpecs` pair when the replacement is also a candidate, then
drop entries of ignored specs unless that would empty the set. -/
def filterObsoletes (ignored : List String) (replaced : List (String × String))
    (l : List Ref) : List Ref :=
  let afterRep := l.filter (fun e =>
    !(replaced.any (fun p => p.1 == e.spec && l.any (fun y => y.spec == p.2))))
  let afterIgn := afterRep.filter (fun e => !(ignored.contains e.spec))
  if afterIgn.isEmpty then afterRep else afterIgn

/-- `ReferenceManager.filterObsoletes` (lines 303-310): the util applied
with the manager's ignored/replaced sets. -/
def ReferenceManager.filterObsoletes (rm : ReferenceManager) (l : List Ref) :
    List Ref :=
  Bikeshed.filterObsoletes rm.ignoredSpecs rm.replacedSpecs l

/-- Spec filter (§4.1 step 2): the entry's spec or shortname matches the
requested spec, case-insensitively. -/
def specMatches (s : String) (e : Ref) : Bool :=
  pyLower e.spec == s || pyLower e.shortname == s

/-- Status filter (§4.1 step 3): exact on an explicit `status`;
otherwise under the hint, `current` accepts everything but `snapshot`,
and `snapshot` accepts `snapshot` entries or `current` entries whose
spec has no snapshot variant among the candidates. -/
def statusCompatFilter (status statusHint : Option String) (l : List Ref) :
    List Ref :=
  match status with
  | some s => l.filter (fun e => e.status == s)
  | none =>
    match statusHint with
    | none => l
    | some sh =>
      if sh == "current" then l.filter (fun e => !(e.status == "snapshot"))
      else if sh == "snapshot" then
        l.filter (fun e => e.status == "snapshot"
          || (e.status == "current"
              && !(l.any (fun y => y.spec == e.spec && y.status == "snapshot"))))
      else l

/-- For filter (§4.1 step 4): with a hint (the `linkFor` argument, or
`linkForHint` when absent), retain entries whose for-set intersects the
hint, for-less entries unless `explicitFor`, and — under the for-less
marker `"/"` — exactly the for-less entries. -/
def forFilter (linkFor linkForHint : Option PyStrList) (explicitFor : Bool)
    (l : List Ref) : List Ref :=
  let hint := match linkFor with
    | some lf => some lf.toSet
    | none =>
      match linkForHint with
      | some lfh => some lfh.toSet
      | none => none
  match hint with
  | none => l
  | some hs =>
    l.filter (fun e =>
      (hs.contains "/" && e.for_.isEmpty)
      || e.for_.any (fun f => hs.contains f)
      || (e.for_.isEmpty && !explicitFor && !(hs.contains "/")))

/-- Export filter (§4.1 step 5). -/
def exportFilter (export_ : Option Bool) (l : List Ref) : List Ref :=
  match export_ with
  | some true => l.filter (fun e => e.export_)
  | _ => l

/-- Modelled from the spec: `RefSource.queryRefs` (§4.1; the RefSource
module is not in the snapshot).  The filtering pipeline in spec order —
text+kind, spec, status, for, export, then the ignored/replaced step
when `ignoreObsoletes` is requested — where the first stage to empty
the candidate set names the failure.  A query without text (used by the
functionish recovery) ranges over every entry. -/
def queryRefs (src : RefSource) (ignored : List String)
    (replaced : List (String × String)) (a : QueryArgs) :
    List Ref × Option String :=
  let textEntries : List Ref := match a.text with
    | some t => (src.refs.lookup t).getD []
    | none => src.refs.foldr (fun (p : String × List Ref) acc => p.2 ++ acc) []
  if textEntries.isEmpty then ([], some "text")
  else
    let s1 := textEntries.filter (fun e => linkTypeCompat a.linkType e.type)
    if s1.isEmpty then ([], some "type")
    else
      let s2 := match a.spec with
        | some s => s1.filter (specMatches s)
        | none => s1
      if s2.isEmpty then ([], some "spec")
      else
        let s3 := statusCompatFilter a.status a.statusHint s2
        if s3.isEmpty then ([], some "status")
        else
          let s4 := forFilter a.linkFor a.linkForHint a.explicitFor s3
          if s4.isEmpty then ([], some "for")
          else
            let s5 := exportFilter a.export_ s4
            if s5.isEmpty then ([], some "export")
            else
              if a.ignoreObsoletes then
                let s6 := filterObsoletes ignored replaced s5
                if s6.isEmpty then ([], some "ignored-specs") else (s6, none)
              else (s5, none)

/-- The three tier queries.  The source wires `specs`/`ignored`/
`replaced` only into the foreign `RefSource` (`__init__` lines 81-89);
the local and anchor-block tiers run the obsolete step with empty sets. -/
def localQuery (rm : ReferenceManager) (a : QueryArgs) : List Ref × Option String :=
  queryRefs rm.localRefs [] [] a

def anchorQuery (rm : ReferenceManager) (a : QueryArgs) : List Ref × Option String :=
  queryRefs rm.anchorBlockRefs [] [] a

def foreignQuery (rm : ReferenceManager) (a : QueryArgs) : List Ref × Option String :=
  queryRefs rm.foreignRefs rm.ignoredSpecs rm.replacedSpecs a

/-- The arguments of `ReferenceManager.getRef` (lines 321-333). -/
structure GetRefArgs where
  linkType : String
  text : String
  spec : Option String
  status : Option String
  statusHint : Option String
  linkFor : Option PyStrList
  explicitFor : Bool
  linkForHint : Option PyStrList
  error : Bool
deriving DecidableEq

/-- Line 339: zero-refs errors are suppressed for `maybe` and
`extended-attribute` links. -/
def zeroRefsErrorB (error : Bool) (linkType : String) : Bool :=
  error && !(linkType == "maybe" || linkType == "extended-attribute")

/-- Lines 341-343: typography-unfix, then lowercase case-insensitive
kinds. -/
def normText (linkType text : String) : String :=
  let t := unfixTypography text
  if lowercaseTypes.contains linkType then pyLower t else t

/-- Ascending order on entry URLs (the `sorted(localRefs, key=lambda x:
x.url)` of line 387). -/
def urlLe (a b : Ref) : Bool := !(lexLt b.url.toList a.url.toList)

/-- The for-less probe query (`linkFor="/"`, `export=True`) of lines
370-377 and 431. -/
def forlessQueryArgs (linkType text : String) : QueryArgs :=
  { QueryArgs.base linkType with
    text := some text, linkFor := some (.one "/"), export_ := some true }

/-- Lines 370-378: anchor-block for-less matches first (filtered for
obsoletes), falling back to the foreign tier, filtered again. -/
def forlessGuardRefs (rm : ReferenceManager) (linkType text : String) : List Ref :=
  let fr1 := rm.filterObsoletes (anchorQuery rm (forlessQueryArgs linkType text)).1
  let fr2 := if fr1.isEmpty then (foreignQuery rm (forlessQueryArgs linkType text)).1
             else fr1
  rm.filterObsoletes fr2

/-- Lines 382-396: a single local match resolves; several pick the
smallest-URL one in testing mode and a `random.choice` (the `rand`
oracle index) otherwise, reporting when `error` is set. -/
def localTail (rm : ReferenceManager) (linkType text : String) (error : Bool) :
    List Ref → Option (Option Ref × List Msg)
  | [] => none
  | [r] => some (some r, [])
  | r1 :: r2 :: rest =>
    let refs := r1 :: r2 :: rest
    let chosen :=
      if rm.testing then (stableSort urlLe refs).headD r1
      else refs.getD (rm.rand % refs.length) r1
    some (some chosen, if error then [.multipleLocalRefs linkType text] else [])

/-- The local-tier query of lines 358-365 (no spec, no status). -/
def getRefLocalRefs (rm : ReferenceManager) (q : GetRefArgs) : List Ref :=
  (localQuery rm
    { QueryArgs.base q.linkType with
      text := some (normText q.linkType q.text), linkFor := q.linkFor,
      linkForHint := q.linkForHint, explicitFor := q.explicitFor }).1

/-- The condition of lines 369-381: the query is for-less, some local
match is for-scoped, and an exported for-less anchor-block/foreign
match survives the obsolete filter. -/
def forlessGuardFires (rm : ReferenceManager) (q : GetRefArgs) : Bool :=
  let lr := getRefLocalRefs rm q
  !lr.isEmpty && q.linkFor.isNone && lr.any (fun x => !x.for_.isEmpty)
    && !(forlessGuardRefs rm q.linkType (normText q.linkType q.text)).isEmpty

/-- Lines 356-396: the local phase of `getRef` — run only when `spec`
is unspecified; `some` is an early return. -/
def localPhase (rm : ReferenceManager) (q : GetRefArgs) :
    Option (Option Ref × List Msg) :=
  if q.spec.isSome then none
  else
    let localRefs := getRefLocalRefs rm q
    let text := normText q.linkType q.text
    if !localRefs.isEmpty && q.linkFor.isNone
        && localRefs.any (fun x => !x.for_.isEmpty) then
      if !(forlessGuardRefs rm q.linkType text).isEmpty then
        some (none, [.ambiguousForless text])
      else localTail rm q.linkType text q.error localRefs
    else localTail rm q.linkType text q.error localRefs

/-- Modelled from the spec: `utils.linkTextVariations` (not in the
snapshot) — §4.2 step 4 "trying case/whitespace variants": the text
itself, then its lowercase form. -/
def linkTextVariations (text : String) (_linkType : String) : List String :=
  [text, pyLower text]

/-- Lines 402-418: splice the first matching default-link rule (scanned
newest-to-oldest) into unset `spec`/`status`/`linkFor`, overwriting the
link type.  Python falsiness of the unset parameters is modelled by
`none`. -/
def applyDefaults (rm : ReferenceManager) (linkType text : String)
    (spec status : Option String) (linkFor : Option PyStrList) :
    Option String × Option String × Option PyStrList × String :=
  if spec.isNone || status.isNone || linkFor.isNone then
    let variedTexts := (linkTextVariations text linkType).filter
      (fun v => (rm.defaultSpecs.lookup v).isSome)
    match variedTexts with
    | [] => (spec, status, linkFor, linkType)
    | v :: _ =>
      let rules := ((rm.defaultSpecs.lookup v).getD []).reverse
      match rules.find? (fun r =>
        linkTypeCompat linkType r.type
        && (match linkFor, r.for_ with
            | some lf, some df =>
              if !(pyTruthyFor lf) || df == "" then true
              else match lf with
                | .one s => s == df
                | .many ss => ss.contains df
            | _, _ => true)) with
      | none => (spec, status, linkFor, linkType)
      | some r =>
        (some (spec.getD r.spec),
         (match status with | some s => some s | none => r.status),
         (match linkFor with
          | some lf => some lf
          | none => r.for_.map PyStrList.one),
         r.type)
  else (spec, status, linkFor, linkType)

/-- Python `str.partition("/")` when a slash is present. -/
def splitFirstSlash (s : String) : String × String :=
  let cs := s.toList
  let pre := cs.takeWhile (fun c => !(c.toNat == 47))
  (String.mk pre, String.mk (cs.drop (pre.length + 1)))

def hasSlash (s : String) : Bool := s.toList.any (fun c => c.toNat == 47)

/-- Lines 491-499: collect, per spec shortname and in first-encounter
order, the argfull signatures that take the argument (and sit on the
given interface), excluding the current document's own shortname. -/
def addToGroup (acc : List (String × List String)) (k v : String) :
    List (String × List String) :=
  if acc.any (fun p => p.1 == k) then
    acc.map (fun p => if p.1 == k then (p.1, p.2 ++ [v]) else p)
  else acc ++ [(k, [v])]

def groupArgMethods (sigs : List (String × MethodMeta)) (text : String)
    (interfaceName : Option String) (selfShortname : Option String) :
    List (String × List String) :=
  sigs.foldl (fun acc p =>
    if p.2.args.contains text
        && (match interfaceName with
            | some i => p.2.for_.contains i
            | none => true)
        && (match selfShortname with
            | some sn => !(p.2.shortname == sn)
            | none => true) then
      addToGroup acc p.2.shortname p.1
    else acc) []

/-- `"{interface}/{method}".format(...)`: Python renders a `None`
interface as the string `None`. -/
def formatIfaceMethod (interfaceName : Option String) (method : String) : String :=
  (match interfaceName with | some i => i | none => "None") ++ "/" ++ method

/-- Lines 511-515: the retry combinations, in loop order — pattern
(interface-qualified first), then status (`"local"` then the requested
one), then each candidate signature. -/
def retryList (interfaceName : Option String) (status : Option String)
    (methods : List String) : List (String × Option String) :=
  ([true, false]).flatMap (fun p =>
    ([some "local", status]).flatMap (fun s =>
      methods.map (fun m =>
        ((if p then formatIfaceMethod interfaceName m else m), s))))

/-- Lines 513-529: run the retry queries until one returns refs; the
last result (successful or not) replaces `refs, failure`. -/
def retryScan (rm : ReferenceManager) (text linkType : String)
    (spec : Option String) :
    List (String × Option String) → (List Ref × Option String) →
    (List Ref × Option String)
  | [], acc => acc
  | (lf, s) :: rest, _acc =>
    let r := foreignQuery rm
      { QueryArgs.base linkType with
        text := some text, spec := spec,
        status := s, linkFor := some (.one lf), ignoreObsoletes := true }
    if r.1.isEmpty then retryScan rm text linkType spec rest r else r

/-- The `{c.url: c for c in ...}.values()` dedup of lines 536 and 558:
a later entry with the same URL replaces the earlier one in place. -/
def upsertByUrl (acc : List Ref) (c : Ref) : List Ref :=
  if acc.any (fun x => x.url == c.url) then
    acc.map (fun x => if x.url == c.url then c else x)
  else acc ++ [c]

def dedupByUrl (l : List Ref) : List Ref := l.foldl upsertByUrl []

/-- Lines 533-565: the `foo()`-for-`foo(bar)` recovery that always runs
after the overload loop.  Returns the (possibly updated) refs/failure,
the emitted messages, and whether `getRef` must return `None` (the
too-many-method-targets case, line 565). -/
def functionishPart (rm : ReferenceManager) (text : String)
    (spec2 status2 : Option String) (statusHintStr : String)
    (interfaceName : Option String) (methodName : String) (zeroRefsError : Bool)
    (refs : List Ref) (failure : Option String) (msgs : List Msg) :
    List Ref × Option String × List Msg × Bool :=
  let methodPre := String.mk methodName.toList.dropLast
  let candidates := (localQuery rm
    { QueryArgs.base "functionish" with
      linkFor := interfaceName.map .one }).1
  let methodRefs := dedupByUrl (candidates.filter
    (fun c => startsWithS c.text methodPre))
  let methodRefs2 :=
    if methodRefs.isEmpty then
      let exportArg := if spec2.isNone then some true else none
      let c1 := (anchorQuery rm
        { QueryArgs.base "functionish" with
          spec := spec2, status := status2,
          statusHint := some statusHintStr, linkFor := interfaceName.map .one,
          export_ := exportArg, ignoreObsoletes := true }).1
      let c2 := (foreignQuery rm
        { QueryArgs.base "functionish" with
          spec := spec2, status := status2,
          statusHint := some statusHintStr, linkFor := interfaceName.map .one,
          export_ := exportArg, ignoreObsoletes := true }).1
      dedupByUrl ((c1 ++ c2).filter (fun c => startsWithS c.text methodPre))
    else methodRefs
  if zeroRefsError && decide (methodRefs2.length > 1) then
    (refs, failure, msgs ++ [.tooManyMethodTargets text], true)
  else
    (refs, failure, msgs, false)

/-- Lines 467-565: the argument/idl overload-disambiguation block.
It fires only when the foreign query failed, the kind is `argument` or
`idl`, and `linkFor` is a list containing a `()`-ending value (iterating
a plain string yields single characters, none of which end in `()`). -/
def argumentFallback (rm : ReferenceManager) (text linkType2 : String)
    (spec2 status2 : Option String) (statusHintStr : String)
    (linkFor2 : Option PyStrList) (zeroRefsError : Bool)
    (refs : List Ref) (failure : Option String) :
    List Ref × Option String × List Msg × Bool :=
  match linkFor2 with
  | some (.many ss) =>
    if failure.isSome && (linkType2 == "argument" || linkType2 == "idl")
        && ss.any (fun x => endsWithS x "()") then
      match ss.find? (fun lf => endsWithS lf "()") with
      | none => (refs, failure, [], false)
      | some lf =>
        let (interfaceName, methodName) :=
          if hasSlash lf then
            let p := splitFirstSlash lf
            (some p.1, p.2)
          else ((none : Option String), lf)
        match rm.foreignRefs.methods.lookup methodName with
        | none =>
          functionishPart rm text spec2 status2 statusHintStr interfaceName
            methodName zeroRefsError refs failure []
        | some methodSigs =>
          match (groupArgMethods methodSigs text interfaceName rm.shortname).map
              (fun p => p.2) with
          | [] =>
            functionishPart rm text spec2 status2 statusHintStr interfaceName
              methodName zeroRefsError refs failure []
          | firstGroup :: restGroups =>
            let msgs1 := if decide (restGroups.length + 1 > 1)
              then [Msg.tooManyOverloads text] else []
            let rf := retryScan rm text linkType2 spec2
              (retryList interfaceName status2 firstGroup) (refs, failure)
            functionishPart rm text spec2 status2 statusHintStr interfaceName
              methodName zeroRefsError rf.1 rf.2 msgs1
    else (refs, failure, [], false)
  | _ => (refs, failure, [], false)

/-- `ReferenceManager.getRef` (lines 321-632). -/
def getRef (rm : ReferenceManager) (q : GetRefArgs) : Option Ref × List Msg :=
  let zeroRefsError := zeroRefsErrorB q.error q.linkType
  let text := normText q.linkType q.text
  let spec0 := q.spec.map pyLower
  let statusHintStr := q.statusHint.getD rm.defaultStatus
  if q.status.isSome && !(linkStatuses.contains (q.status.getD "")) then
    (none, if q.error then [.unknownStatus (q.status.getD "")] else [])
  else
    match localPhase rm q with
    | some res => res
    | none =>
      if q.status == some "local" then (none, [])
      else
        match applyDefaults rm q.linkType text spec0 q.status q.linkFor with
        | (spec2, status2, linkFor2, linkType2) =>
          let blockRefs := (anchorQuery rm
            { QueryArgs.base linkType2 with
              text := some text, spec := spec2,
              linkFor := linkFor2, linkForHint := q.linkForHint,
              explicitFor := q.explicitFor }).1
          if !blockRefs.isEmpty && linkFor2.isNone
              && blockRefs.any (fun x => !x.for_.isEmpty)
              && !(rm.filterObsoletes
                    (foreignQuery rm (forlessQueryArgs linkType2 text)).1).isEmpty then
            (none, [.ambiguousForless text])
          else
            match blockRefs with
            | [r] => (some r, [])
            | r1 :: _ :: _ => (some r1, [.multiplePossibleRefs linkType2 text])
            | [] =>
              let exportArg := if spec2.isNone then some true else none
              let qr := foreignQuery rm
                { QueryArgs.base linkType2 with
                  text := some text, spec := spec2,
                  status := status2, statusHint := some statusHintStr,
                  linkFor := linkFor2, linkForHint := q.linkForHint,
                  explicitFor := q.explicitFor, export_ := exportArg,
                  ignoreObsoletes := true }
              match argumentFallback rm text linkType2 spec2 status2 statusHintStr
                  linkFor2 zeroRefsError qr.1 qr.2 with
              | (refs, failure, fbMsgs, forceNone) =>
                if forceNone then (none, fbMsgs)
                else
                  match failure with
                  | some f =>
                    if (f == "text" || f == "type")
                        && (linkType2 == "property" || linkType2 == "propdesc"
                            || linkType2 == "descriptor")
                        && startsWithS text "--" then
                      (none, fbMsgs)
                    else if f == "text" || f == "type" || f == "export"
                        || f == "spec" || f == "for" || f == "status"
                        || f == "ignored-specs" then
                      (none, fbMsgs ++ (if zeroRefsError
                        then [.noRefsFound f linkType2 text] else []))
                    else
                      (none, fbMsgs ++ [.programmingError f])
                  | none =>
                    match refs with
                    | [] => (none, fbMsgs)
                    | [r] => (some r, fbMsgs)
                    | r1 :: r2 :: rest =>
                      let defaultRef :=
                        if linkType2 == "propdesc" then
                          ((r1 :: r2 :: rest).find?
                            (fun r => r.type == "property")).getD r1
                        else r1
                      (some defaultRef, fbMsgs ++ (if q.error
                        then [.multiplePossibleRefs linkType2 text] else []))

/-! ## State mutators (`removeSameSpecRefs`, `addLocalDfns`) -/

/-- The per-entry update of `removeSameSpecRefs` (lines 223-226): kill
the export flag of non-local entries whose shortname — with trailing
whitespace stripped — equals the current document's shortname. -/
def killSameSpecExport (shortname : Option String) (e : Ref) : Ref :=
  if !(e.status == "local")
      && (match shortname with
          | some sn => pyRstrip e.shortname == sn
          | none => false) then
    { e with export_ := false }
  else e

/-- `ReferenceManager.removeSameSpecRefs` (lines 219-226). -/
def removeSameSpecRefs (rm : ReferenceManager) : ReferenceManager :=
  { rm with
    foreignRefs := { rm.foreignRefs with
      refs := rm.foreignRefs.refs.map
        (fun p => (p.1, p.2.map (killSameSpecExport rm.shortname))) } }

/-- One raw definition record, as the definition scanner hands it to the
core (spec §6): element identity, the no-ref class, the linking texts
(with the duplicated-lt error flag of lines 234-239 pre-extracted), and
the `data-dfn-type` / `data-dfn-for` / `id` attributes. -/
structure DfnElement where
  elId : Nat
  noRef : Bool
  duplicatedLinkText : Option String
  linkTexts : List String
  dfnType : String
  dfnFor : Option String
  id : String
deriving DecidableEq

/-- Modelled from the spec: `config.splitForValues` (not in the
snapshot) — splits a comma-separated `for` attribute into its stripped,
nonempty values. -/
def splitCommaList : List Char → List (List Char)
  | [] => [[]]
  | c :: rest =>
    if c.toNat == 44 then [] :: splitCommaList rest
    else
      match splitCommaList rest with
      | [] => [[c]]
      | g :: gs => (c :: g) :: gs

def splitForValues (s : String) : List String :=
  ((splitCommaList s.toList).map (fun g => pyStrip (String.mk g))).filter
    (fun v => !(v == ""))

/-- The characters of the regex class `[a-zA-Z0-9-_]`. -/
def isDescChar (c : Char) : Bool :=
  (Nat.ble 97 c.toNat && Nat.ble c.toNat 122)
  || (Nat.ble 65 c.toNat && Nat.ble c.toNat 90)
  || (Nat.ble 48 c.toNat && Nat.ble c.toNat 57)
  || c.toNat == 45 || c.toNat == 95

/-- `re.match(r"@[a-zA-Z0-9-_]+/(.*)", term)` with `.strip()` applied to
the group (lines 280-282): an at-keyword, a slash, then the rest of the
line (`.` excludes newlines; `re.match` is a prefix match). -/
def matchDescriptorFor (term : String) : Option String :=
  match term.toList with
  | c :: rest =>
    if c.toNat == 64 then
      let name := rest.takeWhile isDescChar
      if name.isEmpty then none
      else
        match rest.drop name.length with
        | s :: tail =>
          if s.toNat == 47 then
            some (pyStrip (String.mk (tail.takeWhile (fun ch => !(isNl ch)))))
          else none
        | [] => none
    else none
  | [] => none

/-- The `sorted(set)` of lines 277-284: the for-values together with the
bare descriptor value of every `@foo/bar` entry, deduplicated and
sorted ascending. -/
def dedupStr (l : List String) : List String :=
  l.foldl (fun acc s => if acc.contains s then acc else acc ++ [s]) []

def sortStrings (l : List String) : List String :=
  stableSort (fun a b => !(lexLt b.toList a.toList)) l

def processDfnFor (dfnFor : List String) : List String :=
  sortStrings (dedupStr (dfnFor ++ dfnFor.filterMap matchDescriptorFor))

/-- `re.match(r"([^(]+\()[^)]", linkText)` (line 299): a nonempty
paren-free run, an opening paren, then one character that is not a
closing paren. -/
def methodishMatch (linkText : String) : Bool :=
  let cs := linkText.toList
  let pre := cs.takeWhile (fun c => !(c.toNat == 40))
  if pre.isEmpty then false
  else
    match cs.drop pre.length with
    | o :: c2 :: _ => o.toNat == 40 && !(c2.toNat == 41)
    | _ => false

/-- Modelled from the spec: `RefSource.addMethodVariants` (not in the
snapshot) records the methodish link text's variant signatures; the
store is opaque to every embedded operation. -/
def addMethodVariants (src : RefSource) (linkText : String)
    (_dfnFor : List String) (shortname : String) : RefSource :=
  { src with methodVariants := src.methodVariants ++ [(linkText, shortname)] }

/-- Append an entry under its link text (the `defaultdict` append of
line 296). -/
def appendRefEntry (src : RefSource) (key : String) (r : Ref) : RefSource :=
  { src with
    refs :=
      if src.refs.any (fun p => p.1 == key) then
        src.refs.map (fun p => if p.1 == key then (p.1, p.2 ++ [r]) else p)
      else src.refs ++ [(key, [r])] }

/-- Index the link text under a for-value (line 298). -/
def appendFor (src : RefSource) (f lt : String) : RefSource :=
  { src with
    fors :=
      if src.fors.any (fun p => p.1 == f) then
        src.fors.map (fun p => if p.1 == f then (p.1, p.2 ++ [lt]) else p)
      else src.fors ++ [(f, [lt])] }

/-- Lines 277-301: build and register the local ref for one link text
(the for-set already split; `None` spec/shortname rendered as the empty
string). -/
def addDfnRef (rm : ReferenceManager) (el : DfnElement)
    (linkType linkText : String) (dfnFor : List String) :
    ReferenceManager × List Msg :=
  let dfnForAll := processDfnFor dfnFor
  let ref : Ref := ⟨linkText, linkType, rm.spec.getD "", rm.shortname.getD "",
    rm.specLevel, "local", "#" ++ el.id, true, dfnForAll, el.elId⟩
  let src1 := appendRefEntry rm.localRefs linkText ref
  let src2 := dfnForAll.foldl (fun s f => appendFor s f linkText) src1
  let src3 := if methodishMatch linkText
    then addMethodVariants src2 linkText dfnForAll ref.shortname else src2
  ({ rm with localRefs := src3 }, [])

/-- Lines 240-301: process one link text of a definition element —
normalize, validate the kind, lowercase when case-insensitive, check
duplicates (against the element identity), then register. -/
def addLocalDfnText (rm : ReferenceManager) (el : DfnElement) (rawText : String) :
    ReferenceManager × List Msg :=
  let linkText := collapseWs (unfixTypography rawText)
  let linkType := el.dfnType
  if !(dfnTypes.contains linkType) then (rm, [.unknownDfnType linkType])
  else
    let linkText := if lowercaseTypes.contains linkType then pyLower linkText
      else linkText
    match el.dfnFor with
    | none =>
      let existingRefs := (localQuery rm
        { QueryArgs.base linkType with
          text := some linkText,
          linkFor := some (.one "/"), exact := true }).1
      match existingRefs with
      | e :: _ =>
        if !(e.el == el.elId) then (rm, [.duplicateDfn linkType linkText])
        else addDfnRef rm el linkType linkText []
      | [] => addDfnRef rm el linkType linkText []
    | some f =>
      let dfnFor := splitForValues f
      match dfnFor.find? (fun singleFor =>
        match (localQuery rm
          { QueryArgs.base linkType with
            text := some linkText,
            linkFor := some (.one singleFor), exact := true }).1 with
        | e :: _ => !(e.el == el.elId)
        | [] => false) with
      | some bad => (rm, [.duplicateDfnFor linkType bad linkText])
      | none => addDfnRef rm el linkType linkText dfnFor

/-- `ReferenceManager.addLocalDfns` (lines 228-301) over scanner
records. -/
def addLocalDfns (rm : ReferenceManager) (dfns : List DfnElement) :
    ReferenceManager × List Msg :=
  dfns.foldl (fun acc el =>
    if el.noRef then acc
    else
      let dupMsgs := match el.duplicatedLinkText with
        | some t => [Msg.duplicatedLinkText t]
        | none => []
      el.linkTexts.foldl (fun acc2 t =>
        match addLocalDfnText acc2.1 el t with
        | (rm2, ms) => (rm2, acc2.2 ++ ms)) (acc.1, acc.2 ++ dupMsgs)) (rm, [])

/-! ## Concrete states used by the claim instances -/

def emptyRefSource : RefSource := ⟨[], [], [], []⟩

/-- A manager with empty stores, in testing mode. -/
def rmEmpty : ReferenceManager :=
  ⟨[], [], [], [], [], [], [], "current", emptyRefSource, emptyRefSource,
    emptyRefSource, none, "", none, true, 0⟩

def c3old : BiblioRaw := ⟨"OLD", "Old Title", "new", "", 3, "dict"⟩
def c3new : BiblioRaw := ⟨"NEW", "New Title", "", "", 3, "dict"⟩
def rmC3 : ReferenceManager :=
  { rmEmpty with biblios := [("old", [c3old]), ("new", [c3new])] }

def c4foo : BiblioRaw := ⟨"FOO", "Foo", "", "", 3, "dict"⟩
def c4foo2 : BiblioRaw := ⟨"FOO2", "Foo2", "", "", 3, "dict"⟩
def rmC4 : ReferenceManager :=
  { rmEmpty with biblios := [("foo", [c4foo])] }
def rmC4b : ReferenceManager :=
  { rmEmpty with
    biblios := [("foo", [c4foo]), ("foo-2", [c4foo2])],
    biblioNumericSuffixes := [("foo", ["foo-2"])] }
def rmC4x : ReferenceManager :=
  { rmC4b with specs := [("foo-1", "Foo Spec")] }

def c7d : BiblioRaw := ⟨"D", "", "", "", 3, "dict"⟩
def rmC7 : ReferenceManager :=
  { rmEmpty with biblios := [("foo-20200101", [c7d])] }
def c7a : BiblioRaw := ⟨"A", "", "", "", 3, "dict"⟩
def c7b : BiblioRaw := ⟨"B", "", "", "", 2, "dict"⟩
def rmC7w : ReferenceManager :=
  { rmEmpty with biblios :=
      [("foo", [c7a]), ("foo-20200101", [c7a]), ("foo-20210101", [c7b, c7a])] }

def c9old : BiblioRaw := ⟨"OLD9", "T", "ghost", "", 3, "dict"⟩
def rmC9 : ReferenceManager :=
  { rmEmpty with biblios := [("old", [c9old])] }

def c1e1 : Ref := ⟨"foo", "dfn", "spec1", "spec1", "", "local", "#a", true, [], 1⟩
def c1e2 : Ref := ⟨"foo", "dfn", "spec1", "spec1", "", "local", "#b", true, ["bar"], 2⟩
def c1e3 : Ref := ⟨"foo", "dfn", "other", "other", "", "current", "https://x", true, [], 0⟩
def rmC1 : ReferenceManager :=
  { rmEmpty with
    localRefs := ⟨[("foo", [c1e1, c1e2])], [], [], []⟩,
    foreignRefs := ⟨[("foo", [c1e3])], [], [], []⟩,
    shortname := some "me", spec := some "me" }
def qC1 : GetRefArgs := ⟨"dfn", "foo", none, none, none, none, false, none, true⟩
def rmC1w : ReferenceManager :=
  { rmEmpty with
    localRefs := ⟨[("foo", [c1e1])], [], [], []⟩,
    foreignRefs := ⟨[("foo", [c1e3])], [], [], []⟩ }

def c5a : Ref := ⟨"foo", "dfn", "spec1", "spec1", "", "local", "#b", true, [], 1⟩
def c5b : Ref := ⟨"foo", "dfn", "spec1", "spec1", "", "local", "#a", true, [], 2⟩
def rmC5 : ReferenceManager :=
  { rmEmpty with localRefs := ⟨[("foo", [c5a, c5b])], [], [], []⟩ }

def c6e : Ref := ⟨"term", "dfn", "spec-x", "me\n", "", "current", "https://y", true, [], 0⟩
def rmC6 : ReferenceManager :=
  { rmEmpty with
    foreignRefs := ⟨[("term", [c6e])], [], [], []⟩,
    shortname := some "me" }

def fsC8 : List (String × String) := []
def reqC8 : Requester := .withFallback "latest" (.plain "readonly")

/-! ## Order, sort, and scan lemmas -/

theorem mem_insSorted (le : α → α → Bool) (x a : α) (l : List α) :
    a ∈ insSorted le x l ↔ a = x ∨ a ∈ l := by
  induction l with
  | nil => simp [insSorted]
  | cons y ys ih =>
    simp only [insSorted]
    by_cases h : (le y x && !(le x y)) = true
    · rw [if_pos h]
      simp only [List.mem_cons, ih]
      tauto
    · rw [if_neg h]
      simp only [List.mem_cons]

theorem mem_stableSort (le : α → α → Bool) (a : α) (l : List α) :
    a ∈ stableSort le l ↔ a ∈ l := by
  induction l with
  | nil => simp [stableSort]
  | cons x xs ih => simp [stableSort, mem_insSorted, ih]

/-- The head of the stable sort of a nonempty list is a `le`-least element. -/
theorem stableSort_head_min (le : α → α → Bool)
    (htot : ∀ a b, (le a b || le b a) = true)
    (htrans : ∀ a b c, le a b = true → le b c = true → le a c = true) :
    ∀ l : List α, l ≠ [] →
      ∃ m t, stableSort le l = m :: t ∧ m ∈ l ∧ ∀ y ∈ l, le m y = true := by
  have hrefl : ∀ a, le a a = true := by
    intro a; have := htot a a; simpa using this
  intro l
  induction l with
  | nil => intro h; exact absurd rfl h
  | cons x xs ih =>
    intro _
    by_cases hxs : xs = []
    · subst hxs
      refine ⟨x, [], rfl, List.mem_cons_self x [], ?_⟩
      intro y hy
      rcases List.mem_cons.mp hy with h | h
      · rw [h]; exact hrefl x
      · simp at h
    · obtain ⟨m, t, hsort, hmem, hmin⟩ := ih hxs
      simp only [stableSort, hsort, insSorted]
      by_cases hc : (le m x && !(le x m)) = true
      · rw [if_pos hc]
        refine ⟨m, insSorted le x t, rfl, List.mem_cons_of_mem x hmem, ?_⟩
        intro y hy
        rcases List.mem_cons.mp hy with h | h
        · subst h
          have h2 := hc; simp only [Bool.and_eq_true] at h2; exact h2.1
        · exact hmin y h
      · rw [if_neg hc]
        have hxm : le x m = true := by
          cases hle : le x m with
          | true => rfl
          | false =>
            exfalso
            have h2 := htot x m
            rw [hle, Bool.false_or] at h2
            exact hc (by rw [h2, hle]; rfl)
        refine ⟨x, m :: t, rfl, List.mem_cons_self x _, ?_⟩
        intro y hy
        rcases List.mem_cons.mp hy with h | h
        · subst h; exact hrefl y
        · exact htrans x m y hxm (hmin y h)

/-! ## Order facts about `lexLt` (Python string `<`) -/

theorem charLt_iff (c d : Char) : charLt c d = true ↔ c.toNat < d.toNat := by
  simp [charLt, Nat.blt_eq]

theorem lexLt_irrefl : ∀ a : List Char, lexLt a a = false := by
  intro a
  induction a with
  | nil => rfl
  | cons c cs ih =>
    simp only [lexLt]
    have h : charLt c c = false := by
      cases h : charLt c c with
      | false => rfl
      | true => exact absurd ((charLt_iff c c).mp h) (by omega)
    rw [if_neg (by simp [h]), if_neg (by simp [h])]
    exact ih

theorem lexLt_asymm : ∀ a b : List Char, lexLt a b = true → lexLt b a = false := by
  intro a
  induction a with
  | nil =>
    intro b h
    cases b with
    | nil => simp [lexLt] at h
    | cons d ds => rfl
  | cons c cs ih =>
    intro b h
    cases b with
    | nil => simp [lexLt] at h
    | cons d ds =>
      simp only [lexLt] at h ⊢
      by_cases h1 : charLt c d = true
      · have h2 : charLt d c = false := by
          cases hdc : charLt d c with
          | false => rfl
          | true =>
            have := (charLt_iff c d).mp h1
            have := (charLt_iff d c).mp hdc
            omega
        rw [if_neg (by simp [h2]), if_pos h1]
      · rw [if_neg h1] at h
        by_cases h2 : charLt d c = true
        · rw [if_pos h2] at h; exact absurd h (by simp)
        · rw [if_neg h2] at h
          rw [if_neg h2, if_neg h1]
          exact ih ds h

theorem lexLt_trans :
    ∀ a b c : List Char, lexLt a b = true → lexLt b c = true → lexLt a c = true := by
  intro a
  induction a with
  | nil =>
    intro b c hab hbc
    cases b with
    | nil => simp [lexLt] at hab
    | cons y ys =>
      cases c with
      | nil => simp [lexLt] at hbc
      | cons z zs => rfl
  | cons x xs ih =>
    intro b c hab hbc
    cases b with
    | nil => simp [lexLt] at hab
    | cons y ys =>
      cases c with
      | nil => simp [lexLt] at hbc
      | cons z zs =>
        simp only [lexLt] at hab hbc ⊢
        by_cases hxy : charLt x y = true
        · by_cases hyz : charLt y z = true
          · have : charLt x z = true := by
              rw [charLt_iff] at hxy hyz ⊢; omega
            rw [if_pos this]
          · rw [if_neg hyz] at hbc
            by_cases hzy : charLt z y = true
            · rw [if_pos hzy] at hbc; exact absurd hbc (by simp)
            · rw [if_neg hzy] at hbc
              have : charLt x z = true := by
                rw [charLt_iff] at hxy ⊢
                have h1' : ¬ y.toNat < z.toNat := by
                  intro hlt; rw [← charLt_iff] at hlt; simp [hlt] at hyz
                have h2' : ¬ z.toNat < y.toNat := by
                  intro hlt; rw [← charLt_iff] at hlt; simp [hlt] at hzy
                omega
              rw [if_pos this]
        · rw [if_neg hxy] at hab
          by_cases hyx : charLt y x = true
          · rw [if_pos hyx] at hab; exact absurd hab (by simp)
          · rw [if_neg hyx] at hab
            by_cases hyz : charLt y z = true
            · have : charLt x z = true := by
                rw [charLt_iff] at hyz ⊢
                have h1' : ¬ x.toNat < y.toNat := by
                  intro hlt; rw [← charLt_iff] at hlt; simp [hlt] at hxy
                have h2' : ¬ y.toNat < x.toNat := by
                  intro hlt; rw [← charLt_iff] at hlt; simp [hlt] at hyx
                omega
              rw [if_pos this]
            · rw [if_neg hyz] at hbc
              by_cases hzy : charLt z y = true
              · rw [if_pos hzy] at hbc; exact absurd hbc (by simp)
              · rw [if_neg hzy] at hbc
                have hxz : charLt x z = false := by
                  cases hc : charLt x z with
                  | false => rfl
                  | true =>
                    rw [charLt_iff] at hc
                    have h1' : ¬ x.toNat < y.toNat := by
                      intro hlt; rw [← charLt_iff] at hlt; simp [hlt] at hxy
                    have h2' : ¬ y.toNat < x.toNat := by
                      intro hlt; rw [← charLt_iff] at hlt; simp [hlt] at hyx
                    have h3' : ¬ y.toNat < z.toNat := by
                      intro hlt; rw [← charLt_iff] at hlt; simp [hlt] at hyz
                    have h4' : ¬ z.toNat < y.toNat := by
                      intro hlt; rw [← charLt_iff] at hlt; simp [hlt] at hzy
                    omega
                have hzx : charLt z x = false := by
                  cases hc : charLt z x with
                  | false => rfl
                  | true =>
                    rw [charLt_iff] at hc
                    have h1' : ¬ x.toNat < y.toNat := by
                      intro hlt; rw [← charLt_iff] at hlt; simp [hlt] at hxy
                    have h2' : ¬ y.toNat < x.toNat := by
                      intro hlt; rw [← charLt_iff] at hlt; simp [hlt] at hyx
                    have h3' : ¬ y.toNat < z.toNat := by
                      intro hlt; rw [← charLt_iff] at hlt; simp [hlt] at hyz
                    have h4' : ¬ z.toNat < y.toNat := by
                      intro hlt; rw [← charLt_iff] at hlt; simp [hlt] at hzy
                    omega
                rw [if_neg (by simp [hxz]), if_neg (by simp [hzx])]
                exact ih ys zs hab hbc

/-- If `c < a` and not `b < a` then `c < b` (negative transitivity of a
total strict order). -/
theorem lexLt_neg_trans :
    ∀ a b c : List Char, lexLt c a = true → lexLt b a = false → lexLt c b = true := by
  intro a
  induction a with
  | nil =>
    intro b c hca _
    cases c with
    | nil => simp [lexLt] at hca
    | cons z zs => simp [lexLt] at hca
  | cons x xs ih =>
    intro b c hca hba
    cases c with
    | nil =>
      cases b with
      | nil => simp [lexLt] at hba
      | cons y ys => rfl
    | cons z zs =>
      cases b with
      | nil => simp [lexLt] at hba
      | cons y ys =>
        simp only [lexLt] at hca hba ⊢
        have hyx : ¬ y.toNat < x.toNat := by
          intro hlt
          rw [← charLt_iff] at hlt
          rw [if_pos hlt] at hba
          exact absurd hba (by simp)
        by_cases hzx : charLt z x = true
        · rw [charLt_iff] at hzx
          by_cases hzy : z.toNat < y.toNat
          · rw [if_pos ((charLt_iff z y).mpr hzy)]
          · -- z ≥ y and z < x ≤ ... need y ≤ x: from hyx: ¬ y < x means y ≥ x?? no: ¬(y<x) → x ≤ y
            -- we have z < x ≤ y so z < y, contradiction with hzy
            exact absurd (by omega : z.toNat < y.toNat) hzy
        · rw [if_neg hzx] at hca
          by_cases hxz : charLt x z = true
          · rw [if_pos hxz] at hca; exact absurd hca (by simp)
          · rw [if_neg hxz] at hca
            have hxz' : ¬ x.toNat < z.toNat := by
              intro hlt; rw [← charLt_iff] at hlt; simp [hlt] at hxz
            have hzx' : ¬ z.toNat < x.toNat := by
              intro hlt; rw [← charLt_iff] at hlt; simp [hlt] at hzx
            by_cases hxy : charLt x y = true
            · -- head of c equals head of a, which is below head of b: c < b at the head
              rw [charLt_iff] at hxy
              rw [if_pos (show charLt z y = true by rw [charLt_iff]; omega)]
            · have hxy' : ¬ x.toNat < y.toNat := by
                intro hlt; rw [← charLt_iff] at hlt; simp [hlt] at hxy
              rw [if_neg (show ¬ charLt y x = true by
                    intro hc; rw [charLt_iff] at hc; omega),
                  if_neg hxy] at hba
              rw [if_neg (show ¬ charLt z y = true by
                    intro hc; rw [charLt_iff] at hc; omega),
                  if_neg (show ¬ charLt y z = true by
                    intro hc; rw [charLt_iff] at hc; omega)]
              exact ih ys zs hca hba

/-- If not `b < a` and not `c < b` then not `c < a`. -/
theorem lexLt_false_trans (a b c : List Char)
    (hba : lexLt b a = false) (hcb : lexLt c b = false) : lexLt c a = false := by
  cases hca : lexLt c a with
  | false => rfl
  | true => exact absurd (lexLt_neg_trans a b c hca hba) (by simp [hcb])

theorem pairEq {α β : Type} {a c : α} {b d : β} (h : (a, b) = (c, d)) :
    a = c ∧ b = d :=
  ⟨congrArg Prod.fst h, congrArg Prod.snd h⟩

theorem accStep_none_iff (key k : String) (bs : List BiblioRaw)
    (acc : Option (String × List BiblioRaw)) :
    accStep key k bs acc = none ↔ (acc = none ∧ isDated key k = false) := by
  constructor
  · intro h
    unfold accStep at h
    split at h
    · rename_i hsw
      split at h
      · rename_i date hm8
        split at h
        · exact Option.noConfusion h
        · rename_i ld lbs
          split at h
          · exact Option.noConfusion h
          · exact Option.noConfusion h
      · rename_i hm8
        exact ⟨h, by simp [isDated, hm8]⟩
    · rename_i hsw
      have hsw' : startsWithS k key = false := by simpa using hsw
      exact ⟨h, by simp [isDated, hsw']⟩
  · rintro ⟨ha, hd⟩
    by_cases hsw : startsWithS k key = true
    · cases hm8 : match8Date k with
      | some date =>
        exfalso
        unfold isDated at hd
        rw [hsw, hm8] at hd
        simp at hd
      | none => simp [accStep, hsw, hm8, ha]
    · have hsw' : startsWithS k key = false := by simpa using hsw
      simp [accStep, hsw', ha]

theorem accStep_some (key k : String) (bs0 : List BiblioRaw)
    (acc : Option (String × List BiblioRaw)) (d : String) (bs : List BiblioRaw)
    (h : accStep key k bs0 acc = some (d, bs)) :
    ((startsWithS k key = true ∧ match8Date k = some d ∧ bs = bs0)
      ∨ acc = some (d, bs))
    ∧ (∀ date, startsWithS k key = true → match8Date k = some date →
        lexLt d.toList date.toList = false)
    ∧ (∀ ad abs, acc = some (ad, abs) → lexLt d.toList ad.toList = false) := by
  unfold accStep at h
  split at h
  · rename_i hsw
    split at h
    · rename_i date0 hm8
      split at h
      · injection h with h2
        obtain ⟨hd, hb⟩ := pairEq h2
        refine ⟨Or.inl ⟨hsw, by rw [hm8, hd], hb.symm⟩, ?_, ?_⟩
        · intro date _ hm8'
          rw [hm8] at hm8'
          injection hm8' with h4
          rw [← h4, ← hd]
          exact lexLt_irrefl _
        · intro ad abs hx
          exact Option.noConfusion hx
      · rename_i ld lbs
        split at h
        · rename_i hlt
          injection h with h2
          obtain ⟨hd, hb⟩ := pairEq h2
          refine ⟨Or.inl ⟨hsw, by rw [hm8, hd], hb.symm⟩, ?_, ?_⟩
          · intro date _ hm8'
            rw [hm8] at hm8'
            injection hm8' with h4
            rw [← h4, ← hd]
            exact lexLt_irrefl _
          · intro ad abs hx
            injection hx with h5
            obtain ⟨h6, _⟩ := pairEq h5
            rw [← h6, ← hd]
            exact lexLt_asymm _ _ hlt
        · rename_i hlt
          have hlt' : lexLt ld.toList date0.toList = false := by simpa using hlt
          injection h with h2
          obtain ⟨hd, hb⟩ := pairEq h2
          refine ⟨Or.inr (by rw [hd, hb]), ?_, ?_⟩
          · intro date _ hm8'
            rw [hm8] at hm8'
            injection hm8' with h4
            rw [← h4, ← hd]
            exact hlt'
          · intro ad abs hx
            injection hx with h5
            obtain ⟨h6, _⟩ := pairEq h5
            rw [← h6, ← hd]
            exact lexLt_irrefl _
    · rename_i hm8
      refine ⟨Or.inr h, ?_, ?_⟩
      · intro date _ hm8'
        rw [hm8] at hm8'
        exact Option.noConfusion hm8'
      · intro ad abs hacc
        rw [hacc] at h
        injection h with h2
        obtain ⟨h3, _⟩ := pairEq h2
        rw [h3]
        exact lexLt_irrefl _
  · rename_i hsw
    refine ⟨Or.inr h, ?_, ?_⟩
    · intro date hsw2 _
      exact absurd hsw2 hsw
    · intro ad abs hacc
      rw [hacc] at h
      injection h with h2
      obtain ⟨h3, _⟩ := pairEq h2
      rw [h3]
      exact lexLt_irrefl _

theorem latestScan_characterize (key : String) :
    ∀ (l : List (String × List BiblioRaw)) (acc : Option (String × List BiblioRaw)),
      (latestScan key l acc = none ↔ (acc = none ∧ ∀ p ∈ l, isDated key p.1 = false))
      ∧ (∀ d bs, latestScan key l acc = some (d, bs) →
          ((∃ k, (k, bs) ∈ l ∧ startsWithS k key = true ∧ match8Date k = some d)
            ∨ acc = some (d, bs))
          ∧ (∀ k' bs', (k', bs') ∈ l → startsWithS k' key = true →
              ∀ d', match8Date k' = some d' → lexLt d.toList d'.toList = false)
          ∧ (∀ ad abs, acc = some (ad, abs) → lexLt d.toList ad.toList = false)) := by
  intro l
  induction l with
  | nil =>
    intro acc
    refine ⟨by simp [latestScan], ?_⟩
    intro d bs h
    simp only [latestScan] at h
    refine ⟨Or.inr h, by simp, ?_⟩
    intro ad abs hacc
    rw [hacc] at h
    cases h
    exact lexLt_irrefl _
  | cons p rest ih =>
    intro acc
    obtain ⟨k, bs0⟩ := p
    have hstep : latestScan key ((k, bs0) :: rest) acc
        = latestScan key rest (accStep key k bs0 acc) := rfl
    constructor
    · rw [hstep, (ih (accStep key k bs0 acc)).1, accStep_none_iff]
      constructor
      · rintro ⟨⟨ha, hk⟩, hrest⟩
        refine ⟨ha, ?_⟩
        intro q hq
        rcases List.mem_cons.mp hq with h | h
        · rw [h]; exact hk
        · exact hrest q h
      · rintro ⟨ha, hall⟩
        exact ⟨⟨ha, hall (k, bs0) (List.mem_cons_self _ _)⟩,
          fun q hq => hall q (List.mem_cons_of_mem _ hq)⟩
    · intro d bs h
      rw [hstep] at h
      obtain ⟨hmem, hmax, haccb⟩ := (ih (accStep key k bs0 acc)).2 d bs h
      -- the step accumulator, when present, bounds the final date
      have hbound : ∀ a1 a2, accStep key k bs0 acc = some (a1, a2) →
          lexLt d.toList a1.toList = false := haccb
      refine ⟨?_, ?_, ?_⟩
      · rcases hmem with ⟨kk, hk1, hk2, hk3⟩ | haccn
        · exact Or.inl ⟨kk, List.mem_cons_of_mem _ hk1, hk2, hk3⟩
        · obtain ⟨hfrom, _, _⟩ := accStep_some key k bs0 acc d bs haccn
          rcases hfrom with ⟨hsw, hm8, hbs⟩ | hacc
          · exact Or.inl ⟨k, by rw [hbs]; exact List.mem_cons_self _ _, hsw, hm8⟩
          · exact Or.inr hacc
      · intro k' bs' hmem' hsw' d' hm8'
        rcases List.mem_cons.mp hmem' with hh | hh
        · -- the head item: its date is bounded through the step accumulator
          have hk' : k' = k := congrArg Prod.fst hh
          rw [hk'] at hm8' hsw'
          cases hstepv : accStep key k bs0 acc with
          | none =>
            exfalso
            have := (accStep_none_iff key k bs0 acc).mp hstepv
            simp [isDated, hsw', hm8'] at this
          | some a =>
            obtain ⟨a1, a2⟩ := a
            have h1 : lexLt d.toList a1.toList = false := hbound a1 a2 hstepv
            have h2 : lexLt a1.toList d'.toList = false :=
              (accStep_some key k bs0 acc a1 a2 hstepv).2.1 d' hsw' hm8'
            exact lexLt_false_trans d'.toList a1.toList d.toList h2 h1
        · exact hmax k' bs' hh hsw' d' hm8'
      · intro ad abs hacc
        cases hstepv : accStep key k bs0 acc with
        | none =>
          exfalso
          have := (accStep_none_iff key k bs0 acc).mp hstepv
          rw [hacc] at this
          cases this.1
        | some a =>
          obtain ⟨a1, a2⟩ := a
          have h1 : lexLt d.toList a1.toList = false := hbound a1 a2 hstepv
          have h2 : lexLt a1.toList ad.toList = false :=
            (accStep_some key k bs0 acc a1 a2 hstepv).2.2 ad abs hacc
          exact lexLt_false_trans ad.toList a1.toList d.toList h2 h1


/-! ## Claim theorems -/

theorem orderLe_total : ∀ a b : BiblioRaw, (orderLe a b || orderLe b a) = true := by
  intro a b
  simp [orderLe]
  omega

theorem orderLe_trans :
    ∀ a b c : BiblioRaw, orderLe a b = true → orderLe b c = true →
      orderLe a c = true := by
  intro a b c h1 h2
  simp [orderLe] at *
  omega

theorem bestCandidateBiblio_ne_nil (cs : List BiblioRaw) (c : BiblioRaw)
    (h : bestCandidateBiblio cs = some c) : cs ≠ [] := by
  intro hc
  subst hc
  simp [bestCandidateBiblio, stableSort] at h

/-- The best candidate is the line-break-stripped form of a lowest-order
member of the group. -/
theorem bestCandidateBiblio_spec (cs : List BiblioRaw) (c : BiblioRaw)
    (h : bestCandidateBiblio cs = some c) :
    ∃ m ∈ cs, c = stripRaw m ∧ ∀ x ∈ cs, m.order ≤ x.order := by
  have hne := bestCandidateBiblio_ne_nil cs c h
  obtain ⟨m, t, hsort, hmem, hmin⟩ :=
    stableSort_head_min orderLe orderLe_total orderLe_trans cs hne
  unfold bestCandidateBiblio at h
  rw [hsort] at h
  injection h with h2
  refine ⟨m, hmem, h2.symm, ?_⟩
  intro x hx
  have := hmin x hx
  simpa [orderLe] using this

/-- A call at legal depth whose key has candidates runs the
candidate-resolution tail with the recursion at one gas lower. -/
theorem getBiblioRef_hit (rm : ReferenceManager) (text : String)
    (status : Option String) (generateFakeRef allowObsolete quiet : Bool)
    (depth : Nat) (hdepth : depth ≤ 100)
    (hne : bibliosFromKey rm (pyLower text) ≠ []) :
    getBiblioRef rm text status generateFakeRef allowObsolete quiet depth
      = resolveCandidates rm
          (fun t => getBiblioRefGas rm (100 - depth) t status false false true)
          text status allowObsolete quiet (bibliosFromKey rm (pyLower text)) := by
  unfold getBiblioRef
  rw [show 101 - depth = (100 - depth) + 1 from by omega]
  simp only [getBiblioRefGas]
  have hfalse : (bibliosFromKey rm (pyLower text)).isEmpty = false := by
    cases hx : bibliosFromKey rm (pyLower text) with
    | nil => exact absurd hx hne
    | cons a l => rfl
  rw [if_pos (by rw [hfalse]; rfl)]

/-- A call at legal depth on a missing `base-N` key whose base exists:
the suffix branch of the source, before any resolution. -/
theorem getBiblioRef_miss_base (rm : ReferenceManager) (text : String)
    (status : Option String) (generateFakeRef allowObsolete quiet : Bool)
    (depth : Nat) (hdepth : depth ≤ 100)
    (hmiss : bibliosFromKey rm (pyLower text) = [])
    (base : String) (hmatch : matchBaseSuffix (pyLower text) = some base)
    (cs : List BiblioRaw) (hbase : rm.biblios.lookup base = some cs) :
    getBiblioRef rm text status generateFakeRef allowObsolete quiet depth
      = (if (rm.biblioNumericSuffixes.lookup base).isSome then
          (if (rm.specs.lookup (pyLower text)).isSome && generateFakeRef then
            (.ok (some (mkSpecBib (pyLower text) status)), [])
          else (.ok none, if quiet then [] else [.wrongBiblioSuffix text]))
        else
          resolveCandidates rm
            (fun t => getBiblioRefGas rm (100 - depth) t status false false true)
            text status allowObsolete quiet cs) := by
  unfold getBiblioRef
  rw [show 101 - depth = (100 - depth) + 1 from by omega]
  simp only [getBiblioRefGas]
  rw [if_neg (by rw [hmiss]; simp)]
  split
  · rename_i b' heq
    rw [hmatch] at heq
    injection heq with hb
    subst hb
    split
    · rename_i cs' heq2
      rw [hbase] at heq2
      injection heq2 with hcs
      subst hcs
      rfl
    · rename_i heq2
      rw [hbase] at heq2
      exact Option.noConfusion heq2
  · rename_i heq
    rw [hmatch] at heq
    exact Option.noConfusion heq

/-- The candidate-resolution tail on a best candidate that is neither a
string nor an alias entry and has a non-blank `obsoletedBy`. -/
theorem resolveCandidates_obsolete (rm : ReferenceManager)
    (recur : String → BiblioOutcome × List Msg) (text : String)
    (status : Option String) (allowObsolete quiet : Bool)
    (candidates : List BiblioRaw) (c : BiblioRaw)
    (hbc : bestCandidateBiblio candidates = some c)
    (hstr : c.biblioFormat ≠ "string") (hali : c.biblioFormat ≠ "alias")
    (hobs : pyStrip c.obsoletedBy ≠ "") :
    resolveCandidates rm recur text status allowObsolete quiet candidates
      = if allowObsolete then
          (.ok (some (applyPreferredName rm (mkBib status c))), [])
        else
          match recur c.obsoletedBy with
          | (.crash, ms) => (.crash, ms)
          | (.ok none, ms) => (.crash, ms)
          | (.ok (some b), ms) =>
            (.ok (some (applyPreferredName rm b)),
              ms ++ (if quiet then [] else [.obsoleteBiblio c.linkText b.linkText])) := by
  unfold resolveCandidates
  split
  · rename_i heq
    rw [hbc] at heq
    exact Option.noConfusion heq
  · rename_i c' heq
    rw [hbc] at heq
    injection heq with hc
    subst hc
    rw [if_neg (by simp [hstr]), if_neg (by simp [hali]), if_pos (by simp [hobs])]

/-- C2: `getBiblioRef` terminates on every input — the embedding is a
total function of the explicit depth counter — and every call at depth
greater than 100 aborts immediately, emitting the fatal cyclic-chain
data error and returning `None` without any recursion. -/
theorem getBiblioRef_depth_overflow (rm : ReferenceManager) (text : String)
    (status : Option String) (generateFakeRef allowObsolete quiet : Bool)
    (depth : Nat) (h : depth > 100) :
    getBiblioRef rm text status generateFakeRef allowObsolete quiet depth
      = (.ok none, [.cyclicBiblio text])
    ∧ (Msg.cyclicBiblio text).sev = Sev.fatal := by
  have h0 : 101 - depth = 0 := by omega
  unfold getBiblioRef
  rw [h0]
  exact ⟨rfl, rfl⟩

theorem getBiblioRef_depth_overflow_witness :
    101 > 100
    ∧ (getBiblioRef rmEmpty "x" none false false false 101
        = (.ok none, [.cyclicBiblio "x"])
      ∧ (Msg.cyclicBiblio "x").sev = Sev.fatal) :=
  ⟨by decide,
    getBiblioRef_depth_overflow rmEmpty "x" none false false false 101 (by decide)⟩

/-- C9: with a best candidate whose non-blank `obsoletedBy` names a key
that resolves to `None`, the not-allowed, not-quiet branch dereferences
that `None` while building the obsolescence message, so the public call
`getBiblioRef(rmC9, "old")` raises (crashes) instead of returning; the
second conjunct shows the replacement key indeed resolves to `None`. -/
theorem getBiblioRef_obsolete_crash :
    getBiblioRef rmC9 "old" none false false false 0 = (.crash, [])
    ∧ getBiblioRef rmC9 "ghost" none false false true 1 = (.ok none, []) :=
  ⟨by decide, by decide⟩

/-- C3 counterexample: at a concrete obsolete key, `getBiblioRef` with
`allow_obsolete=false` and `quiet=false` returns the replacement's
resolved entry, but the single message it emits goes through `m.die` —
the fatal channel — so no non-fatal advisory is emitted, contrary to
the claim. -/
theorem getBiblioRef_obsolete_counterexample :
    (getBiblioRef rmC3 "old" none false false false 0).1
      = .ok (some (mkBib none (stripRaw c3new)))
    ∧ (getBiblioRef rmC3 "old" none false false false 0).2
      = [.obsoleteBiblio "OLD" "NEW"]
    ∧ ∀ m ∈ (getBiblioRef rmC3 "old" none false false false 0).2,
        m.sev = Sev.fatal := by
  refine ⟨by decide, by decide, ?_⟩
  intro m hm
  rw [show (getBiblioRef rmC3 "old" none false false false 0).2
      = [Msg.obsoleteBiblio "OLD" "NEW"] from by decide] at hm
  simp at hm
  rw [hm]
  rfl

/-- C3 (amended): for a best candidate with a non-blank `obsoletedBy`
(and neither string nor alias format), `allow_obsolete=true` returns
the obsolete entry itself (canonical-name override applied) with no
diagnostic at all, while `allow_obsolete=false` returns the resolved
replacement entry and — when not quiet — emits the obsolescence
diagnostic, which travels the fatal `m.die` channel rather than a
non-fatal advisory one. -/
theorem getBiblioRef_obsolete_spec (rm : ReferenceManager) (text : String)
    (status : Option String) (generateFakeRef quiet : Bool) (depth : Nat)
    (hdepth : depth ≤ 100) (c : BiblioRaw)
    (hbc : bestCandidateBiblio (bibliosFromKey rm (pyLower text)) = some c)
    (hstr : c.biblioFormat ≠ "string") (hali : c.biblioFormat ≠ "alias")
    (hobs : pyStrip c.obsoletedBy ≠ "") :
    (getBiblioRef rm text status generateFakeRef true quiet depth
        = (.ok (some (applyPreferredName rm (mkBib status c))), []))
    ∧ (∀ b ms,
        getBiblioRef rm c.obsoletedBy status false false true (depth + 1)
          = (.ok (some b), ms) →
        getBiblioRef rm text status generateFakeRef false quiet depth
          = (.ok (some (applyPreferredName rm b)),
              ms ++ if quiet then [] else [.obsoleteBiblio c.linkText b.linkText]))
    ∧ (∀ a b : String, (Msg.obsoleteBiblio a b).sev = Sev.fatal) := by
  have hne : bibliosFromKey rm (pyLower text) ≠ [] :=
    bestCandidateBiblio_ne_nil _ _ hbc
  refine ⟨?_, ?_, fun a b => rfl⟩
  · rw [getBiblioRef_hit rm text status generateFakeRef true quiet depth hdepth hne,
      resolveCandidates_obsolete rm _ text status true quiet _ c hbc hstr hali hobs]
    rw [if_pos rfl]
  · intro b ms hrec
    rw [getBiblioRef_hit rm text status generateFakeRef false quiet depth hdepth hne,
      resolveCandidates_obsolete rm _ text status false quiet _ c hbc hstr hali hobs]
    rw [if_neg (by simp)]
    have hrec' : getBiblioRefGas rm (100 - depth) c.obsoletedBy status false false true
        = (.ok (some b), ms) := by
      unfold getBiblioRef at hrec
      rw [show 101 - (depth + 1) = 100 - depth from by omega] at hrec
      exact hrec
    simp only [hrec']

theorem getBiblioRef_obsolete_spec_witness :
    (0 ≤ 100
      ∧ bestCandidateBiblio (bibliosFromKey rmC3 (pyLower "old"))
          = some (stripRaw c3old)
      ∧ (stripRaw c3old).biblioFormat ≠ "string"
      ∧ (stripRaw c3old).biblioFormat ≠ "alias"
      ∧ pyStrip (stripRaw c3old).obsoletedBy ≠ "")
    ∧ ((getBiblioRef rmC3 "old" none false true false 0
        = (.ok (some (applyPreferredName rmC3 (mkBib none (stripRaw c3old)))), []))
      ∧ (∀ b ms,
          getBiblioRef rmC3 (stripRaw c3old).obsoletedBy none false false true 1
            = (.ok (some b), ms) →
          getBiblioRef rmC3 "old" none false false false 0
            = (.ok (some (applyPreferredName rmC3 b)),
                ms ++ if false then []
                  else [.obsoleteBiblio (stripRaw c3old).linkText b.linkText]))
      ∧ (∀ a b : String, (Msg.obsoleteBiblio a b).sev = Sev.fatal)) :=
  ⟨⟨by decide, by decide, by decide, by decide, by decide⟩,
    getBiblioRef_obsolete_spec rmC3 "old" none false false 0 (by decide)
      (stripRaw c3old) (by decide) (by decide) (by decide) (by decide)⟩

/-- C4 counterexample: at a concrete state where the base key exists
with another registered numeric suffix, a request for the missing
suffixed key with fake-ref generation enabled and the key naming a
known spec returns a synthesized spec-based entry — not the
wrong-suffix report plus null that the claim requires for every such
request. -/
theorem getBiblioRef_suffix_counterexample :
    getBiblioRef rmC4x "foo-1" none true false false 0
      = (.ok (some (mkSpecBib "foo-1" none)), [])
    ∧ getBiblioRef rmC4x "foo-1" none true false false 0
      ≠ (.ok none, [.wrongBiblioSuffix "foo-1"]) :=
  ⟨by decide, by decide⟩

/-- C4 (amended): for a request `base-N` with no entry of its own whose
base exists: with no registered numeric suffixes for the base, the call
silently resolves the base's own candidates (no extra message is added
by the substitution); with other registered suffixes — unless the key
names a known spec while fake-ref generation is enabled — it returns
null and, when not quiet, reports the wrong-suffix failure (a fatal
`m.die`). -/
theorem getBiblioRef_numeric_suffix (rm : ReferenceManager) (text : String)
    (status : Option String) (generateFakeRef allowObsolete quiet : Bool)
    (depth : Nat) (hdepth : depth ≤ 100)
    (hmiss : bibliosFromKey rm (pyLower text) = [])
    (base : String) (hmatch : matchBaseSuffix (pyLower text) = some base)
    (cs : List BiblioRaw) (hbase : rm.biblios.lookup base = some cs) :
    (rm.biblioNumericSuffixes.lookup base = none →
      getBiblioRef rm text status generateFakeRef allowObsolete quiet depth
        = resolveCandidates rm
            (fun t => getBiblioRefGas rm (100 - depth) t status false false true)
            text status allowObsolete quiet cs)
    ∧ (∀ sfx, rm.biblioNumericSuffixes.lookup base = some sfx →
        (generateFakeRef = false ∨ rm.specs.lookup (pyLower text) = none) →
        getBiblioRef rm text status generateFakeRef allowObsolete quiet depth
          = (.ok none, if quiet then [] else [.wrongBiblioSuffix text])
        ∧ (Msg.wrongBiblioSuffix text).sev = Sev.fatal) := by
  rw [getBiblioRef_miss_base rm text status generateFakeRef allowObsolete quiet
    depth hdepth hmiss base hmatch cs hbase]
  constructor
  · intro h
    rw [h]
    rfl
  · intro sfx hs hgen
    rw [hs]
    refine ⟨?_, rfl⟩
    rw [if_pos (show (some sfx).isSome = true from rfl)]
    rcases hgen with h | h
    · rw [if_neg (by rw [h]; simp)]
    · rw [if_neg (by rw [h]; simp)]

theorem getBiblioRef_numeric_suffix_witness :
    (0 ≤ 100
      ∧ bibliosFromKey rmC4b (pyLower "foo-1") = []
      ∧ matchBaseSuffix (pyLower "foo-1") = some "foo"
      ∧ rmC4b.biblios.lookup "foo" = some [c4foo]
      ∧ rmC4b.biblioNumericSuffixes.lookup "foo" = some ["foo-2"]
      ∧ rmC4b.specs.lookup (pyLower "foo-1") = none
      ∧ bibliosFromKey rmC4 (pyLower "foo-1") = []
      ∧ rmC4.biblios.lookup "foo" = some [c4foo]
      ∧ rmC4.biblioNumericSuffixes.lookup "foo" = none)
    ∧ ((rmC4b.biblioNumericSuffixes.lookup "foo" = none →
        getBiblioRef rmC4b "foo-1" none false false false 0
          = resolveCandidates rmC4b
              (fun t => getBiblioRefGas rmC4b (100 - 0) t none false false true)
              "foo-1" none false false [c4foo])
      ∧ (∀ sfx, rmC4b.biblioNumericSuffixes.lookup "foo" = some sfx →
          (false = false ∨ rmC4b.specs.lookup (pyLower "foo-1") = none) →
          getBiblioRef rmC4b "foo-1" none false false false 0
            = (.ok none, if false then [] else [.wrongBiblioSuffix "foo-1"])
          ∧ (Msg.wrongBiblioSuffix "foo-1").sev = Sev.fatal))
    ∧ getBiblioRef rmC4 "foo-1" none false false false 0
        = (.ok (some (mkBib none (stripRaw c4foo))), []) :=
  ⟨⟨by decide, by decide, by decide, by decide, by decide, by decide, by decide,
      by decide, by decide⟩,
    getBiblioRef_numeric_suffix rmC4b "foo-1" none false false false 0 (by decide)
      (by decide) "foo" (by decide) [c4foo] (by decide),
    by decide⟩

/-- C7 counterexample: a dated variant of the key exists in the store,
yet `getLatestBiblioRef` returns null because the undated key itself
has no candidates — the claim's description never returns null here. -/
theorem getLatestBiblioRef_counterexample :
    getLatestBiblioRef rmC7 "foo" = .ok none
    ∧ startsWithS "foo-20200101" "foo" = true
    ∧ match8Date "foo-20200101" = some "20200101"
    ∧ ("foo-20200101", [c7d]) ∈ rmC7.biblios := by
  refine ⟨by decide, by decide, by decide, by decide⟩

/-- C7 (amended): provided the queried key itself has at least one
candidate (the source returns null otherwise, even when dated variants
exist), `getLatestBiblioRef` returns null exactly when no stored key
both starts with the query and ends in an 8-digit date, and any entry
it returns is built from a lowest-order candidate of a matching dated
group whose date no other matching group strictly exceeds. -/
theorem getLatestBiblioRef_spec (rm : ReferenceManager) (key : String)
    (hc : bibliosFromKey rm key ≠ []) :
    (getLatestBiblioRef rm key = .ok none →
       ∀ p ∈ rm.biblios, isDated key p.1 = false)
    ∧ (∀ b, getLatestBiblioRef rm key = .ok (some b) →
        ∃ k bs d, (k, bs) ∈ rm.biblios ∧ startsWithS k key = true
          ∧ match8Date k = some d
          ∧ (∃ m ∈ bs, b = mkBib none (stripRaw m) ∧ ∀ x ∈ bs, m.order ≤ x.order)
          ∧ (∀ k' bs', (k', bs') ∈ rm.biblios → startsWithS k' key = true →
              ∀ d', match8Date k' = some d' →
                lexLt d.toList d'.toList = false)) := by
  have hfalse : (bibliosFromKey rm key).isEmpty = false := by
    cases hx : bibliosFromKey rm key with
    | nil => exact absurd hx hc
    | cons a l => rfl
  constructor
  · intro h
    simp only [getLatestBiblioRef] at h
    rw [if_neg (by simp [hfalse])] at h
    split at h
    · rename_i hscan
      intro p hp
      have := ((latestScan_characterize key rm.biblios none).1).mp hscan
      exact this.2 p hp
    · rename_i d bs hscan
      exfalso
      split at h
      · exact BiblioOutcome.noConfusion h
      · rename_i c hbc
        injection h with h2
        exact Option.noConfusion h2
  · intro b hb
    simp only [getLatestBiblioRef] at hb
    rw [if_neg (by simp [hfalse])] at hb
    split at hb
    · rename_i hscan
      exfalso
      injection hb with h2
      exact Option.noConfusion h2
    · rename_i d bs hscan
      obtain ⟨hmem, hmax, _⟩ := (latestScan_characterize key rm.biblios none).2 d bs hscan
      rcases hmem with ⟨k, hk1, hk2, hk3⟩ | hacc
      · split at hb
        · exact absurd hb (by intro hx; exact BiblioOutcome.noConfusion hx)
        · rename_i c hbc
          injection hb with h2
          injection h2 with h3
          obtain ⟨m, hmm, hcm, hmin⟩ := bestCandidateBiblio_spec bs c hbc
          refine ⟨k, bs, d, hk1, hk2, hk3, ⟨m, hmm, ?_, hmin⟩, hmax⟩
          rw [← h3, hcm]
      · exact Option.noConfusion hacc

theorem getLatestBiblioRef_spec_witness :
    bibliosFromKey rmC7w "foo" ≠ []
    ∧ ((getLatestBiblioRef rmC7w "foo" = .ok none →
         ∀ p ∈ rmC7w.biblios, isDated "foo" p.1 = false)
      ∧ (∀ b, getLatestBiblioRef rmC7w "foo" = .ok (some b) →
          ∃ k bs d, (k, bs) ∈ rmC7w.biblios ∧ startsWithS k "foo" = true
            ∧ match8Date k = some d
            ∧ (∃ m ∈ bs, b = mkBib none (stripRaw m) ∧ ∀ x ∈ bs, m.order ≤ x.order)
            ∧ (∀ k' bs', (k', bs') ∈ rmC7w.biblios → startsWithS k' "foo" = true →
                ∀ d', match8Date k' = some d' →
                  lexLt d.toList d'.toList = false))) :=
  ⟨by decide, getLatestBiblioRef_spec rmC7w "foo" (by decide)⟩

/-- C8: `DataFileRequester.fetch` with `okayToFail` never raises — it
always returns `ok`, and when the file and every fallback miss it
returns the empty result of the requested mode; without `okayToFail`
an all-miss raises an `OSError` naming the (outermost) location. -/
theorem fetch_okayToFail (fs : List (String × String)) (r : Requester)
    (segs : List String) (strMode : Bool) (typeArg : Option String) :
    (∃ v, fetch fs r segs strMode true typeArg = .ok v)
    ∧ (anyHit fs r segs typeArg = false →
        fetch fs r segs strMode true typeArg
          = .ok (if strMode then .strRes "" else .handle "")
        ∧ fetch fs r segs strMode false typeArg
          = .err (.noFile (buildPath segs (typeArg.getD r.ty)))) := by
  induction r generalizing typeArg with
  | plain t =>
    constructor
    · unfold fetch
      cases hl : fs.lookup (buildPath segs (typeArg.getD t)) with
      | some c => exact ⟨_, rfl⟩
      | none => exact ⟨_, rfl⟩
    · intro hmiss
      unfold anyHit at hmiss
      have hl : fs.lookup (buildPath segs (typeArg.getD t)) = none := by
        cases hx : fs.lookup (buildPath segs (typeArg.getD t)) with
        | none => rfl
        | some c => rw [hx] at hmiss; simp at hmiss
      constructor
      · unfold fetch; rw [hl]; rfl
      · unfold fetch; rw [hl]; rfl
  | withFallback t fb ih =>
    constructor
    · unfold fetch
      cases hl : fs.lookup (buildPath segs (typeArg.getD t)) with
      | some c => exact ⟨_, rfl⟩
      | none =>
        obtain ⟨v, hv⟩ := (ih none).1
        rw [hv]
        exact ⟨v, rfl⟩
    · intro hmiss
      unfold anyHit at hmiss
      rw [Bool.or_eq_false_iff] at hmiss
      have h1 : fs.lookup (buildPath segs (typeArg.getD t)) = none := by
        cases hx : fs.lookup (buildPath segs (typeArg.getD t)) with
        | none => rfl
        | some c =>
          have := hmiss.1
          rw [hx] at this
          simp at this
      obtain ⟨he1, he2⟩ := (ih none).2 hmiss.2
      constructor
      · unfold fetch; rw [h1, he1]
      · unfold fetch; rw [h1, he2]; rfl

theorem fetch_okayToFail_witness :
    anyHit fsC8 reqC8 ["a"] none = false
    ∧ ((∃ v, fetch fsC8 reqC8 ["a"] true true none = .ok v)
      ∧ (anyHit fsC8 reqC8 ["a"] none = false →
          fetch fsC8 reqC8 ["a"] true true none
            = .ok (if true then .strRes "" else .handle "")
          ∧ fetch fsC8 reqC8 ["a"] true false none
            = .err (.noFile (buildPath ["a"] ((none : Option String).getD reqC8.ty))))) :=
  ⟨by decide, fetch_okayToFail fsC8 reqC8 ["a"] true none⟩

theorem urlLe_total : ∀ a b : Ref, (urlLe a b || urlLe b a) = true := by
  intro a b
  unfold urlLe
  cases h1 : lexLt b.url.toList a.url.toList with
  | false => rfl
  | true =>
    have h2 := lexLt_asymm _ _ h1
    rw [h2]
    rfl

theorem urlLe_trans :
    ∀ a b c : Ref, urlLe a b = true → urlLe b c = true → urlLe a c = true := by
  intro a b c h1 h2
  unfold urlLe at *
  rw [Bool.not_eq_true'] at h1 h2 ⊢
  exact lexLt_false_trans a.url.toList b.url.toList c.url.toList h1 h2

theorem getD_mem_or {α : Type} (l : List α) (i : Nat) (d : α) :
    l.getD i d ∈ l ∨ l.getD i d = d := by
  induction l generalizing i with
  | nil => right; cases i <;> rfl
  | cons x xs ih =>
    cases i with
    | zero => left; rw [List.getD_cons_zero]; exact List.mem_cons_self _ _
    | succ n =>
      rw [List.getD_cons_succ]
      rcases ih n with h | h
      · left; exact List.mem_cons_of_mem _ h
      · right; exact h

/-- A `some` result of the local phase is the result of `getRef` (the
status-validation guard passed). -/
theorem getRef_eq_localPhase (rm : ReferenceManager) (q : GetRefArgs)
    (hstatus : q.status = none ∨ linkStatuses.contains (q.status.getD "") = true)
    (res : Option Ref × List Msg) (h : localPhase rm q = some res) :
    getRef rm q = res := by
  have hcond : (q.status.isSome && !(linkStatuses.contains (q.status.getD ""))) = false := by
    rcases hstatus with h1 | h1
    · rw [h1]; rfl
    · rw [h1]; simp
  simp only [getRef]
  rw [if_neg (by rw [hcond]; simp), h]

theorem localPhase_guard (rm : ReferenceManager) (q : GetRefArgs)
    (hspec : q.spec = none) (hg : forlessGuardFires rm q = true) :
    localPhase rm q = some (none, [.ambiguousForless (normText q.linkType q.text)]) := by
  simp only [localPhase]
  rw [if_neg (by rw [hspec]; simp)]
  simp only [forlessGuardFires] at hg
  rw [Bool.and_eq_true] at hg
  obtain ⟨habc, hd⟩ := hg
  rw [if_pos habc, if_pos hd]

theorem localPhase_noguard (rm : ReferenceManager) (q : GetRefArgs)
    (hspec : q.spec = none) (hg : forlessGuardFires rm q = false) :
    localPhase rm q
      = localTail rm q.linkType (normText q.linkType q.text) q.error
          (getRefLocalRefs rm q) := by
  simp only [localPhase]
  rw [if_neg (by rw [hspec]; simp)]
  simp only [forlessGuardFires] at hg
  by_cases hc : (!(getRefLocalRefs rm q).isEmpty && q.linkFor.isNone
      && (getRefLocalRefs rm q).any (fun x => !x.for_.isEmpty)) = true
  · rw [if_pos hc]
    have hinner : (!(forlessGuardRefs rm q.linkType
        (normText q.linkType q.text)).isEmpty) = false := by
      cases hi : (!(forlessGuardRefs rm q.linkType
          (normText q.linkType q.text)).isEmpty) with
      | false => rfl
      | true => exfalso; rw [hc, hi] at hg; simp at hg
    rw [if_neg (by rw [hinner]; simp)]
  · rw [if_neg hc]

/-- A nonempty local result always yields one of its own entries. -/
theorem localTail_some_mem (rm : ReferenceManager) (linkType text : String)
    (error : Bool) (lr : List Ref) (hne : lr ≠ []) :
    ∃ r ms, localTail rm linkType text error lr = some (some r, ms) ∧ r ∈ lr := by
  rcases lr with _ | ⟨r1, rest1⟩
  · exact absurd rfl hne
  rcases rest1 with _ | ⟨r2, rest⟩
  · exact ⟨r1, [], rfl, List.mem_cons_self _ _⟩
  · simp only [localTail]
    by_cases ht : rm.testing = true
    · rw [if_pos ht]
      obtain ⟨m, t, hsort, hmem, hmin⟩ :=
        stableSort_head_min urlLe urlLe_total urlLe_trans (r1 :: r2 :: rest) (by simp)
      refine ⟨m, if error = true then [Msg.multipleLocalRefs linkType text] else [],
        ?_, hmem⟩
      rw [hsort]
      rfl
    · rw [if_neg ht]
      rcases getD_mem_or (r1 :: r2 :: rest) (rm.rand % (r1 :: r2 :: rest).length) r1
          with h | h
      · exact ⟨_, _, rfl, h⟩
      · refine ⟨_, _, rfl, ?_⟩
        rw [h]
        exact List.mem_cons_self _ _

/-- C1 counterexample: the query is for-less, the local tier holds one
for-less and one for-scoped match — so the claim's guard ("the local
matches are *all* for-scoped") does not apply and it promises a local
default — yet the code, which guards on *any* for-scoped local match,
reports the ambiguous for-less link and returns null. -/
theorem getRef_forless_counterexample :
    getRef rmC1 qC1 = (none, [.ambiguousForless "foo"])
    ∧ getRefLocalRefs rmC1 qC1 = [c1e1, c1e2]
    ∧ c1e1.for_ = [] :=
  ⟨by decide, by decide, rfl⟩

/-- C1 (amended): for a spec-less query that passes status validation,
when the for-less-ambiguity guard fires — the query is for-less, *at
least one* local match is for-scoped, and an exported for-less
anchor-block/foreign match survives — `getRef` reports the ambiguous
for-less link and returns null with no default; otherwise any nonempty
local tier wins outright: the result is one of the local matches. -/
theorem getRef_local_precedence (rm : ReferenceManager) (q : GetRefArgs)
    (hspec : q.spec = none)
    (hstatus : q.status = none ∨ linkStatuses.contains (q.status.getD "") = true) :
    (forlessGuardFires rm q = true →
      getRef rm q = (none, [.ambiguousForless (normText q.linkType q.text)]))
    ∧ (forlessGuardFires rm q = false → getRefLocalRefs rm q ≠ [] →
      ∃ r ∈ getRefLocalRefs rm q, (getRef rm q).1 = some r) := by
  constructor
  · intro hg
    exact getRef_eq_localPhase rm q hstatus _ (localPhase_guard rm q hspec hg)
  · intro hg hne
    obtain ⟨r, ms, hlt, hmem⟩ :=
      localTail_some_mem rm q.linkType (normText q.linkType q.text) q.error
        (getRefLocalRefs rm q) hne
    have hres := getRef_eq_localPhase rm q hstatus (some r, ms)
      (by rw [localPhase_noguard rm q hspec hg]; exact hlt)
    exact ⟨r, hmem, by rw [hres]⟩

theorem getRef_local_precedence_witness :
    (qC1.spec = none
      ∧ (qC1.status = none ∨ linkStatuses.contains (qC1.status.getD "") = true))
    ∧ ((forlessGuardFires rmC1w qC1 = true →
        getRef rmC1w qC1 = (none, [.ambiguousForless (normText qC1.linkType qC1.text)]))
      ∧ (forlessGuardFires rmC1w qC1 = false → getRefLocalRefs rmC1w qC1 ≠ [] →
        ∃ r ∈ getRefLocalRefs rmC1w qC1, (getRef rmC1w qC1).1 = some r)) :=
  ⟨⟨rfl, Or.inl rfl⟩, getRef_local_precedence rmC1w qC1 rfl (Or.inl rfl)⟩

/-- C5: a spec-less query (status valid, errors on, guard not firing)
with at least two local matches always reports the multiple-local-refs
ambiguity, and in testing mode resolves to a local match whose URL no
other local match's URL lexicographically precedes — the same entry on
every run, since the embedding is a pure function of the state. -/
theorem getRef_testing_deterministic (rm : ReferenceManager) (q : GetRefArgs)
    (hspec : q.spec = none) (herr : q.error = true)
    (hstatus : q.status = none ∨ linkStatuses.contains (q.status.getD "") = true)
    (hg : forlessGuardFires rm q = false)
    (hlen : 2 ≤ (getRefLocalRefs rm q).length) :
    (getRef rm q).2 = [.multipleLocalRefs q.linkType (normText q.linkType q.text)]
    ∧ (rm.testing = true →
      ∃ r, (getRef rm q).1 = some r ∧ r ∈ getRefLocalRefs rm q
        ∧ ∀ y ∈ getRefLocalRefs rm q, lexLt y.url.toList r.url.toList = false) := by
  rcases hlr : getRefLocalRefs rm q with _ | ⟨r1, rest1⟩
  · rw [hlr] at hlen; simp at hlen
  rcases rest1 with _ | ⟨r2, rest⟩
  · rw [hlr] at hlen; simp at hlen
  have hlp : localPhase rm q
      = some (some (if rm.testing then (stableSort urlLe (r1 :: r2 :: rest)).headD r1
                    else (r1 :: r2 :: rest).getD
                      (rm.rand % (r1 :: r2 :: rest).length) r1),
              if q.error then [.multipleLocalRefs q.linkType (normText q.linkType q.text)]
              else []) := by
    rw [localPhase_noguard rm q hspec hg, hlr]
    rfl
  have hres := getRef_eq_localPhase rm q hstatus _ hlp
  constructor
  · rw [hres]
    simp [herr]
  · intro ht
    obtain ⟨m, t, hsort, hmemS, hminS⟩ :=
      stableSort_head_min urlLe urlLe_total urlLe_trans (r1 :: r2 :: rest) (by simp)
    refine ⟨m, ?_, ?_, ?_⟩
    · rw [hres]
      simp [ht, hsort]
    · exact hmemS
    · intro y hy
      have := hminS y hy
      simpa [urlLe] using this

theorem getRef_testing_deterministic_witness :
    (qC1.spec = none ∧ qC1.error = true
      ∧ (qC1.status = none ∨ linkStatuses.contains (qC1.status.getD "") = true)
      ∧ forlessGuardFires rmC5 qC1 = false
      ∧ 2 ≤ (getRefLocalRefs rmC5 qC1).length)
    ∧ ((getRef rmC5 qC1).2
        = [.multipleLocalRefs qC1.linkType (normText qC1.linkType qC1.text)]
      ∧ (rmC5.testing = true →
        ∃ r, (getRef rmC5 qC1).1 = some r ∧ r ∈ getRefLocalRefs rmC5 qC1
          ∧ ∀ y ∈ getRefLocalRefs rmC5 qC1,
              lexLt y.url.toList r.url.toList = false)) :=
  ⟨⟨rfl, rfl, Or.inl rfl, by decide, by decide⟩,
    getRef_testing_deterministic rmC5 qC1 rfl rfl (Or.inl rfl) (by decide) (by decide)⟩

/-- C6 counterexample: the document's shortname is "me" and a foreign
entry's shortname is "me\n" — not equal to "me" — yet its export flag is
forced to false, because the code compares with trailing whitespace
stripped (`ref["shortname"].rstrip() == self.shortname`). -/
theorem removeSameSpecRefs_counterexample :
    (removeSameSpecRefs rmC6).foreignRefs.refs
      = [("term", [{ c6e with export_ := false }])]
    ∧ c6e.shortname ≠ "me"
    ∧ rmC6.shortname = some "me"
    ∧ c6e.status ≠ "local"
    ∧ c6e.export_ = true :=
  ⟨by decide, by decide, rfl, by decide, rfl⟩

/-- C6 (amended): `removeSameSpecRefs` mutates only the export flag of
foreign-tier entries: every other state component is unchanged, every
entry keeps every field except possibly `export_`, the flag is forced to
false exactly when the entry's status is not "local" and its shortname
— with trailing whitespace stripped — equals the document's shortname,
and is kept otherwise. -/
theorem removeSameSpecRefs_frame (rm : ReferenceManager) :
    ((removeSameSpecRefs rm).specs = rm.specs
      ∧ (removeSameSpecRefs rm).defaultSpecs = rm.defaultSpecs
      ∧ (removeSameSpecRefs rm).ignoredSpecs = rm.ignoredSpecs
      ∧ (removeSameSpecRefs rm).replacedSpecs = rm.replacedSpecs
      ∧ (removeSameSpecRefs rm).biblios = rm.biblios
      ∧ (removeSameSpecRefs rm).biblioNumericSuffixes = rm.biblioNumericSuffixes
      ∧ (removeSameSpecRefs rm).preferredBiblioNames = rm.preferredBiblioNames
      ∧ (removeSameSpecRefs rm).defaultStatus = rm.defaultStatus
      ∧ (removeSameSpecRefs rm).localRefs = rm.localRefs
      ∧ (removeSameSpecRefs rm).anchorBlockRefs = rm.anchorBlockRefs
      ∧ (removeSameSpecRefs rm).shortname = rm.shortname
      ∧ (removeSameSpecRefs rm).spec = rm.spec
      ∧ (removeSameSpecRefs rm).foreignRefs.methods = rm.foreignRefs.methods
      ∧ (removeSameSpecRefs rm).foreignRefs.fors = rm.foreignRefs.fors)
    ∧ (removeSameSpecRefs rm).foreignRefs.refs
        = rm.foreignRefs.refs.map
            (fun p => (p.1, p.2.map (killSameSpecExport rm.shortname)))
    ∧ (∀ (sn : Option String) (e : Ref),
        (killSameSpecExport sn e).text = e.text
        ∧ (killSameSpecExport sn e).type = e.type
        ∧ (killSameSpecExport sn e).spec = e.spec
        ∧ (killSameSpecExport sn e).shortname = e.shortname
        ∧ (killSameSpecExport sn e).level = e.level
        ∧ (killSameSpecExport sn e).status = e.status
        ∧ (killSameSpecExport sn e).url = e.url
        ∧ (killSameSpecExport sn e).for_ = e.for_
        ∧ (killSameSpecExport sn e).el = e.el)
    ∧ (∀ (sn : Option String) (e : Ref) (s : String),
        e.status ≠ "local" → sn = some s → pyRstrip e.shortname = s →
        (killSameSpecExport sn e).export_ = false)
    ∧ (∀ (sn : Option String) (e : Ref),
        ¬(e.status ≠ "local" ∧ ∃ s, sn = some s ∧ pyRstrip e.shortname = s) →
        (killSameSpecExport sn e).export_ = e.export_) := by
  refine ⟨⟨rfl, rfl, rfl, rfl, rfl, rfl, rfl, rfl, rfl, rfl, rfl, rfl, rfl, rfl⟩,
    rfl, ?_, ?_, ?_⟩
  · intro sn e
    unfold killSameSpecExport
    by_cases hcond : (!(e.status == "local")
        && (match sn with
            | some sn' => pyRstrip e.shortname == sn'
            | none => false)) = true
    · rw [if_pos hcond]
      exact ⟨rfl, rfl, rfl, rfl, rfl, rfl, rfl, rfl, rfl⟩
    · rw [if_neg hcond]
      exact ⟨rfl, rfl, rfl, rfl, rfl, rfl, rfl, rfl, rfl⟩
  · intro sn e s hst hsn hrs
    subst hsn
    unfold killSameSpecExport
    rw [if_pos (by simp [hst, hrs])]
  · intro sn e hnot
    unfold killSameSpecExport
    rw [if_neg ?_]
    intro hc
    rw [Bool.and_eq_true] at hc
    obtain ⟨h1, h2⟩ := hc
    apply hnot
    refine ⟨by simpa using h1, ?_⟩
    cases hsn : sn with
    | none => rw [hsn] at h2; exact absurd h2 (by simp)
    | some s =>
      rw [hsn] at h2
      exact ⟨s, rfl, by simpa using h2⟩

theorem takeWhile_all_eq (p : Char → Bool) (l : List Char) (h : l.all p = true) :
    l.takeWhile p = l := by
  induction l with
  | nil => rfl
  | cons c cs ih =>
    rw [List.all_cons, Bool.and_eq_true] at h
    obtain ⟨hc, hcs⟩ := h
    simp [List.takeWhile_cons, hc, ih hcs]

theorem all_takeWhile_append (p : Char → Bool) (l1 : List Char) (x : Char)
    (l2 : List Char) (h1 : l1.all p = true) (hx : p x = false) :
    (l1 ++ x :: l2).takeWhile p = l1 := by
  induction l1 with
  | nil => simp [List.takeWhile_cons, hx]
  | cons c cs ih =>
    rw [List.all_cons, Bool.and_eq_true] at h1
    obtain ⟨hc, hcs⟩ := h1
    simp [List.takeWhile_cons, hc, ih hcs]

/-- The descriptor regex of line 280 on a string that is literally an
at-keyword, a slash, and a newline-free remainder: it matches and the
stripped remainder is the captured group. -/
theorem matchDescriptorFor_shape (name v : String)
    (hname : name.toList ≠ []) (hchars : name.toList.all isDescChar = true)
    (hv : v.toList.all (fun c => !(isNl c)) = true) :
    matchDescriptorFor ("@" ++ name ++ "/" ++ v) = some (pyStrip v) := by
  have htl : ("@" ++ name ++ "/" ++ v).toList
      = '@' :: (name.toList ++ '/' :: v.toList) := by
    simp [String.toList, String.data_append, List.append_assoc]
  have htw : (name.toList ++ '/' :: v.toList).takeWhile isDescChar = name.toList :=
    all_takeWhile_append isDescChar name.toList '/' v.toList hchars (by decide)
  have htv : v.toList.takeWhile (fun ch => !(isNl ch)) = v.toList :=
    takeWhile_all_eq _ _ hv
  unfold matchDescriptorFor
  simp only [htl]
  rw [show ('@'.toNat == 64) = true from rfl, if_pos rfl, htw]
  rw [if_neg (by intro h; exact hname (by simpa using h))]
  rw [List.drop_left]
  simp only [htv]
  rfl

theorem mem_dedupStr_go (a : String) :
    ∀ (l acc : List String), a ∈ acc ∨ a ∈ l →
      a ∈ l.foldl (fun acc2 s => if acc2.contains s then acc2 else acc2 ++ [s]) acc := by
  intro l
  induction l with
  | nil =>
    intro acc h
    rw [List.foldl_nil]
    rcases h with h | h
    · exact h
    · exact absurd h (List.not_mem_nil a)
  | cons x xs ih =>
    intro acc h
    rw [List.foldl_cons]
    apply ih
    by_cases hc : acc.contains x = true
    · rw [if_pos hc]
      rcases h with h | h
      · exact Or.inl h
      · rcases List.mem_cons.mp h with h1 | h1
        · subst h1
          exact Or.inl (by simpa using hc)
        · exact Or.inr h1
    · rw [if_neg hc]
      rcases h with h | h
      · exact Or.inl (List.mem_append_left _ h)
      · rcases List.mem_cons.mp h with h1 | h1
        · subst h1
          exact Or.inl (List.mem_append_right _ (List.mem_singleton.mpr rfl))
        · exact Or.inr h1

theorem mem_dedupStr (a : String) (l : List String) (h : a ∈ l) : a ∈ dedupStr l :=
  mem_dedupStr_go a l [] (Or.inr h)

theorem lookup_cons {β : Type} (f k : String) (b : β) (es : List (String × β)) :
    List.lookup f ((k, b) :: es) = if f = k then some b else List.lookup f es := by
  simp only [List.lookup]
  by_cases h : f = k
  · rw [if_pos h, show (f == k) = true from beq_iff_eq.mpr h]
  · rw [if_neg h, show (f == k) = false from beq_eq_false_iff_ne.mpr h]

theorem map_updFor_cons (f' lt k : String) (vs : List String)
    (t : List (String × List String)) :
    List.map (fun p => if p.1 == f' then (p.1, p.2 ++ [lt]) else p) ((k, vs) :: t)
      = (if k = f' then (k, vs ++ [lt]) else (k, vs))
        :: List.map (fun p => if p.1 == f' then (p.1, p.2 ++ [lt]) else p) t := by
  rw [List.map_cons]
  by_cases h : k = f'
  · simp [h]
  · simp [h]

theorem lookup_map_updFor (lt f : String) (f' : String) :
    ∀ (l : List (String × List String)),
      (l.map (fun p => if p.1 == f' then (p.1, p.2 ++ [lt]) else p)).lookup f
        = if f = f' then
            (match l.lookup f with
              | some vs => some (vs ++ [lt])
              | none => none)
          else l.lookup f := by
  intro l
  induction l with
  | nil => by_cases hf : f = f' <;> simp [hf]
  | cons hd t ih =>
    obtain ⟨k, vs⟩ := hd
    rw [map_updFor_cons]
    by_cases hkf : k = f'
    · rw [if_pos hkf]
      rw [lookup_cons, lookup_cons]
      subst hkf
      by_cases hk : f = k
      · subst hk
        rw [if_pos rfl, if_pos rfl, if_pos rfl]
      · rw [if_neg hk, if_neg hk, if_neg hk, ih, if_neg hk]
    · rw [if_neg hkf]
      rw [lookup_cons, lookup_cons]
      by_cases hk : f = k
      · have hf : ¬ f = f' := by rw [hk]; exact hkf
        rw [if_pos hk, if_neg hf, if_pos hk]
      · rw [if_neg hk, ih, if_neg hk]

theorem lookup_append_single (lt f : String) (f' : String) :
    ∀ (l : List (String × List String)),
      (l ++ [(f', [lt])]).lookup f
        = match l.lookup f with
          | some vs => some vs
          | none => if f = f' then some [lt] else none := by
  intro l
  induction l with
  | nil =>
    rw [List.nil_append, show List.lookup f ([] : List (String × List String)) = none
      from rfl, lookup_cons]
    by_cases hf : f = f' <;> simp [hf]
  | cons hd t ih =>
    obtain ⟨k, vs⟩ := hd
    rw [List.cons_append, lookup_cons, lookup_cons]
    by_cases hk : f = k
    · simp [hk]
    · simp [hk, ih]

theorem any_key_false_lookup_none (f : String) :
    ∀ (l : List (String × List String)),
      l.any (fun p => p.1 == f) = false → l.lookup f = none := by
  intro l
  induction l with
  | nil => intro _; rfl
  | cons hd t ih =>
    obtain ⟨k, vs⟩ := hd
    intro h
    rw [List.any_cons, Bool.or_eq_false_iff] at h
    obtain ⟨h1, h2⟩ := h
    have hne : f ≠ k := by
      intro he
      subst he
      simp at h1
    rw [lookup_cons, if_neg hne]
    exact ih h2

theorem any_key_true_lookup_some (f : String) :
    ∀ (l : List (String × List String)),
      l.any (fun p => p.1 == f) = true → ∃ vs, l.lookup f = some vs := by
  intro l
  induction l with
  | nil => intro h; simp at h
  | cons hd t ih =>
    obtain ⟨k, vs⟩ := hd
    intro h
    rw [List.any_cons, Bool.or_eq_true] at h
    by_cases hk : f = k
    · exact ⟨vs, by rw [lookup_cons, if_pos hk]⟩
    · rcases h with h1 | h1
      · have he : k = f := by simpa using h1
        exact absurd he.symm hk
      · obtain ⟨ws, hws⟩ := ih h1
        exact ⟨ws, by rw [lookup_cons, if_neg hk]; exact hws⟩

/-- `appendFor` indexes the link text under `f'` and leaves every other
for-key's bucket unchanged. -/
theorem lookup_appendFor (src : RefSource) (f' lt f : String) :
    (appendFor src f' lt).fors.lookup f
      = if f = f' then
          some (((src.fors.lookup f).getD []) ++ [lt])
        else src.fors.lookup f := by
  have hfors : (appendFor src f' lt).fors
      = (if src.fors.any (fun p => p.1 == f') then
          src.fors.map (fun p => if p.1 == f' then (p.1, p.2 ++ [lt]) else p)
        else src.fors ++ [(f', [lt])]) := rfl
  rw [hfors]
  cases hany : src.fors.any (fun p => p.1 == f') with
  | true =>
    rw [if_pos rfl, lookup_map_updFor]
    by_cases hf : f = f'
    · subst hf
      obtain ⟨vs, hvs⟩ := any_key_true_lookup_some f src.fors hany
      rw [if_pos rfl, if_pos rfl, hvs]
      rfl
    · rw [if_neg hf, if_neg hf]
  | false =>
    rw [if_neg (by simp), lookup_append_single]
    by_cases hf : f = f'
    · subst hf
      rw [any_key_false_lookup_none f src.fors hany, if_pos rfl, if_pos rfl]
      rfl
    · rw [if_neg hf, if_neg hf]
      cases h : src.fors.lookup f <;> simp [hf, h]

/-- Folding the for-registration over a list of for-values makes (and
keeps) every listed value's bucket contain the link text. -/
theorem foldl_appendFor_lookup (lt : String) :
    ∀ (fs : List String) (src : RefSource) (f : String),
      (f ∈ fs ∨ ∃ lts, src.fors.lookup f = some lts ∧ lt ∈ lts) →
      ∃ lts, ((fs.foldl (fun s x => appendFor s x lt) src).fors.lookup f) = some lts
        ∧ lt ∈ lts := by
  intro fs
  induction fs with
  | nil =>
    intro src f h
    rcases h with h | h
    · exact absurd h (List.not_mem_nil f)
    · simpa using h
  | cons x rest ih =>
    intro src f h
    rw [List.foldl_cons]
    apply ih
    by_cases hf : f = x
    · right
      subst hf
      rw [lookup_appendFor, if_pos rfl]
      exact ⟨_, rfl, by simp⟩
    · rcases h with h | h
      · rcases List.mem_cons.mp h with h1 | h1
        · exact absurd h1 hf
        · exact Or.inl h1
      · right
        obtain ⟨lts, hl, hmem⟩ := h
        rw [lookup_appendFor, if_neg hf]
        exact ⟨lts, hl, hmem⟩

theorem addDfnRef_fors (rm : ReferenceManager) (el : DfnElement)
    (linkType linkText : String) (dfnFor : List String) :
    (addDfnRef rm el linkType linkText dfnFor).1.localRefs.fors
      = ((processDfnFor dfnFor).foldl
          (fun s f => appendFor s f linkText)
          (appendRefEntry rm.localRefs linkText
            ⟨linkText, linkType, rm.spec.getD "", rm.shortname.getD "",
              rm.specLevel, "local", "#" ++ el.id, true, processDfnFor dfnFor,
              el.elId⟩)).fors := by
  simp only [addDfnRef]
  by_cases hm : methodishMatch linkText = true
  · rw [if_pos hm]
    rfl
  · rw [if_neg hm]

/-- C10: a for-value that is literally an at-keyword descriptor
`@name/value` also contributes the bare (stripped) `value` to the
definition's for-set, and registering the definition then indexes its
link text under that bare descriptor-value scope in the local tier. -/
theorem addDfnRef_descriptor_scope (name v : String) (dfnFor : List String)
    (hname : name.toList ≠ []) (hchars : name.toList.all isDescChar = true)
    (hv : v.toList.all (fun c => !(isNl c)) = true)
    (hterm : ("@" ++ name ++ "/" ++ v) ∈ dfnFor) :
    pyStrip v ∈ processDfnFor dfnFor
    ∧ ∀ (rm : ReferenceManager) (el : DfnElement) (linkType linkText : String),
        ∃ lts, (addDfnRef rm el linkType linkText dfnFor).1.localRefs.fors.lookup
            (pyStrip v) = some lts ∧ linkText ∈ lts := by
  have hmem : pyStrip v ∈ processDfnFor dfnFor := by
    unfold processDfnFor sortStrings
    rw [mem_stableSort]
    apply mem_dedupStr
    apply List.mem_append_right
    exact List.mem_filterMap.mpr
      ⟨_, hterm, matchDescriptorFor_shape name v hname hchars hv⟩
  refine ⟨hmem, ?_⟩
  intro rm el linkType linkText
  rw [addDfnRef_fors]
  exact foldl_appendFor_lookup linkText (processDfnFor dfnFor) _ (pyStrip v)
    (Or.inl hmem)

theorem addDfnRef_descriptor_scope_witness :
    ("media".toList ≠ [] ∧ "media".toList.all isDescChar = true
      ∧ " width ".toList.all (fun c => !(isNl c)) = true
      ∧ ("@" ++ "media" ++ "/" ++ " width ") ∈ ["@media/ width "])
    ∧ (pyStrip " width " ∈ processDfnFor ["@media/ width "]
      ∧ ∀ (rm : ReferenceManager) (el : DfnElement) (linkType linkText : String),
          ∃ lts,
            (addDfnRef rm el linkType linkText ["@media/ width "]).1.localRefs.fors.lookup
              (pyStrip " width ") = some lts ∧ linkText ∈ lts) :=
  ⟨⟨by decide, by decide, by decide, by decide⟩,
    addDfnRef_descriptor_scope "media" " width " ["@media/ width "]
      (by decide) (by decide) (by decide) (by decide)⟩

end Bikeshed
